import Mathlib

/-!
Verification of the schedule-optimizer core: constraint-matrix construction
(`schedule_agent/core/constraints_builder.py`, `schedule_agent/utils/time_utils.py`)
and the deterministic greedy scheduler
(`deployment/schedule_agent/core/scheduler.py`).

Python integer matrices are embedded as `List (List Int)`, id lists as
`List String`, and fallible code paths (pandas `iloc[0]` on an empty frame,
`np.min` of an empty array) as `Option`.
-/

set_option maxRecDepth 4000

/-! ## Time utilities (`schedule_agent/utils/time_utils.py`) -/

/-- `generate_timeslots()`: the fixed 18 daily slots (9 morning, 9 afternoon). -/
def generateTimeslots : List String :=
  ["09:00-09:20", "09:20-09:40", "09:40-10:00",
   "10:00-10:20", "10:20-10:40", "10:40-11:00",
   "11:00-11:20", "11:20-11:40", "11:40-12:00",
   "13:00-13:20", "13:20-13:40", "13:40-14:00",
   "14:00-14:20", "14:20-14:40", "14:40-15:00",
   "15:00-15:20", "15:20-15:40", "15:40-16:00"]

/-- Numeric value of an ASCII digit. -/
def dval (c : Char) : Nat := c.toNat - 48

/-- Model of Python `str.strip()`: drop leading and trailing whitespace.
(`String.trim` itself is not used because its `Substring` internals do not
reduce in the kernel.) -/
def pyStrip (s : String) : String :=
  String.mk (((s.data.dropWhile Char.isWhitespace).reverse.dropWhile
    Char.isWhitespace).reverse)

/-- Split a character list on a separator character (model of Python
`str.split(sep)` for a one-character separator: always at least one piece,
empty pieces kept). -/
def splitChar (sep : Char) : List Char → List (List Char)
  | [] => [[]]
  | c :: tl =>
    let r := splitChar sep tl
    if c = sep then [] :: r
    else
      match r with
      | [] => [[c]]
      | h :: t => (c :: h) :: t

/-- Split a string on a separator character. -/
def pySplit (sep : Char) (s : String) : List String :=
  (splitChar sep s.data).map (fun cs => String.mk cs)

/-- `int(...)` on a digit string (only applied to the fixed slot labels). -/
def charsToNat (cs : List Char) : Nat :=
  cs.foldl (fun acc c => acc * 10 + dval c) 0

/-- Start of a slot label: `slot.split('-')[0].split(':')` as an (hour, minute) pair. -/
def slotStart (slot : String) : Nat × Nat :=
  let sp := (splitChar '-' slot.data).headD []
  let hm := splitChar ':' sp
  (charsToNat (hm.getD 0 []), charsToNat (hm.getD 1 []))

/-- Python tuple comparison `(a,b) <= (c,d)` (lexicographic). -/
def pairLe (x y : Nat × Nat) : Bool := x.1 < y.1 || (x.1 == y.1 && x.2 ≤ y.2)

/-- Python tuple comparison `(a,b) < (c,d)` (lexicographic). -/
def pairLt (x y : Nat × Nat) : Bool := x.1 < y.1 || (x.1 == y.1 && x.2 < y.2)

/-- `check_shift_availability(shift_code, timeslot)`.  `none` models a NaN cell.
`○` = full day, `AN` = afternoon (start hour ≥ 13), `PN` = morning
(start hour < 12); anything else is unavailable (fail closed). -/
def checkShiftAvailability (shift_code : Option String) (timeslot : String) : Bool :=
  match shift_code with
  | none => false
  | some sc =>
    if sc = "" || pyStrip sc = "" || sc = "nan" then false
    else
      let code := pyStrip sc
      if code = "○" then true
      else
        let hour := (slotStart timeslot).1
        if code = "AN" then decide (hour ≥ 13)
        else if code = "PN" then decide (hour < 12)
        else false

/-- One attempt of the regex `(\d{1,2}):(\d{2})` at the head of the character
list, greedy in the hour (two digits tried before one), returning the matched
(hour, minute) pair and the remaining characters. -/
def tryMatch : List Char → Option ((Nat × Nat) × List Char)
  | a :: b :: c :: d :: e :: rest =>
    if a.isDigit && b.isDigit && c == ':' && d.isDigit && e.isDigit then
      some ((dval a * 10 + dval b, dval d * 10 + dval e), rest)
    else if a.isDigit && b == ':' && c.isDigit && d.isDigit then
      some ((dval a, dval c * 10 + dval d), e :: rest)
    else none
  | [a, b, c, d] =>
    if a.isDigit && b == ':' && c.isDigit && d.isDigit then
      some ((dval a, dval c * 10 + dval d), [])
    else none
  | _ => none

/-- Scan driver for `re.findall(r'(\d{1,2}):(\d{2})', ...)`: try a match at
every position, resuming after each match.  `fuel` bounds the recursion. -/
def scanTimesGo : Nat → List Char → List (Nat × Nat)
  | 0, _ => []
  | _ + 1, [] => []
  | fuel + 1, c :: tl =>
    match tryMatch (c :: tl) with
    | some (t, rest) => t :: scanTimesGo fuel rest
    | none => scanTimesGo fuel tl

/-- All `(\d{1,2}):(\d{2})` matches in left-to-right order. -/
def scanTimes (cs : List Char) : List (Nat × Nat) := scanTimesGo cs.length cs

/-- Model of `unicodedata.normalize('NFKC', ...)` restricted to the character
classes the parser inspects: full-width digits, full-width colon and hyphen,
half-width katakana middle dot and ideographic space are mapped to their
half-width / canonical forms; all other characters are left unchanged. -/
def nfkcLite (s : String) : String :=
  String.mk (s.data.map (fun c =>
    if '０' ≤ c && c ≤ '９' then Char.ofNat (c.toNat - 0xFF10 + 48)
    else if c = '：' then ':'
    else if c = '－' then '-'
    else if c = '･' then '・'
    else if c = '　' then ' '
    else c))

/-- `parse_unavailable_times(time_str)`: empty / `'nan'` input yields no
exclusions; otherwise the text after the last `・` is scanned for `HH:MM`
patterns; two or more patterns give the half-open range [first, second),
exactly one gives the one-hour block [t, t+1h); the slots whose start falls in
the range (tuple-lexicographic comparison, as in the source) are returned. -/
def parse_unavailable_times (time_str : String) : List String :=
  if time_str = "" || pyStrip time_str = "" || time_str = "nan" then []
  else
    let s := nfkcLite time_str
    let parts := pySplit '・' s
    let time_part := parts.getLastD s
    match scanTimes time_part.data with
    | [] => []
    | [t] =>
      generateTimeslots.filter (fun slot =>
        pairLe t (slotStart slot) && pairLt (slotStart slot) (t.1 + 1, t.2))
    | t1 :: t2 :: _ =>
      generateTimeslots.filter (fun slot =>
        pairLe t1 (slotStart slot) && pairLt (slotStart slot) t2)

/-- The `HH:MM` patterns `parse_unavailable_times` extracts from an annotation:
empty for guarded-out input, otherwise the scan of the trailing
(post-`・`) portion of the NFKC-normalized text. -/
def extractedTimes (time_str : String) : List (Nat × Nat) :=
  if time_str = "" || pyStrip time_str = "" || time_str = "nan" then []
  else
    let s := nfkcLite time_str
    scanTimes ((pySplit '・' s).getLastD s).data

/-! ## Constraint-matrix builder (`schedule_agent/core/constraints_builder.py`)

Rows of `normalized_therapists.csv` / `normalized_prescriptions.csv` /
`normalized_shifts.csv` are embedded as records; `Option String` fields model
cells that may be NaN. -/

/-- A row of the normalized therapists table. -/
structure TherapistRec where
  staff_id : String      -- 職員ID
  name : String          -- 漢字氏名
  gender : String        -- 性別
  ward : String          -- 担当病棟
  senju : Bool           -- 専従 (exclusive)
deriving DecidableEq, Repr

/-- A row of the normalized prescriptions table. -/
structure PatientRec where
  patient_id : String            -- 患者ID
  ward : String                  -- 病棟
  primaryName : Option String    -- 担当療法士 (none = NaN)
  bathing : Option String        -- 入浴
  excretion : Option String      -- 排泄
  other : Option String          -- その他指定時間
deriving DecidableEq, Repr

/-- A row of the normalized shifts table. -/
structure ShiftRec where
  therapist_name : String
  availability : Option String   -- shift code; none = NaN
deriving DecidableEq, Repr

/-- `dict(zip(therapists_df['漢字氏名'], therapists_df['職員ID'])).get(name)`:
later rows override earlier ones, so the last matching row wins. -/
def nameToId (ts : List TherapistRec) (name : String) : Option String :=
  (ts.reverse.find? (fun t => t.name = name)).map (fun t => t.staff_id)

/-- The resolved primary-therapist id of a patient
(`name_to_id.get(patient.get('担当療法士'))`). -/
def primaryTid (ts : List TherapistRec) (pat : PatientRec) : Option String :=
  pat.primaryName.bind (fun n => nameToId ts n)

/-- The resolved primary therapist's gender: looked up only when the resolved
id is truthy (non-`None`, non-empty), from the first therapist row with that
id (`iloc[0]`). -/
def primaryGender (ts : List TherapistRec) (pat : PatientRec) : Option String :=
  match primaryTid ts pat with
  | none => none
  | some pid =>
    if pid = "" then none
    else (ts.find? (fun t => t.staff_id = pid)).map (fun t => t.gender)

/-- The `+40` gender-bonus condition
(`if primary_gender and therapist['性別'] == primary_gender`). -/
def genderBonus (ts : List TherapistRec) (pat : PatientRec) (th : TherapistRec) : Bool :=
  match primaryGender ts pat with
  | none => false
  | some g => g ≠ "" && th.gender = g

/-- One cell of the compatibility matrix for therapist id `tid` (whose first
table row is `th`): primary therapist → 100; exclusive therapist of a
different ward → 0; otherwise 20 (+20 same ward, +40 gender bonus). -/
def compatEntry (ts : List TherapistRec) (pat : PatientRec) (tid : String)
    (th : TherapistRec) : Int :=
  if primaryTid ts pat = some tid then 100
  else if th.senju && th.ward ≠ pat.ward then 0
  else
    20 + (if th.ward = pat.ward then 20 else 0)
       + (if genderBonus ts pat th then 40 else 0)

/-- Collecting `Option`-valued map (the all-or-nothing row/matrix builder
pattern: any failed lookup poisons the whole construction). -/
def optMap {α β : Type} (f : α → Option β) : List α → Option (List β)
  | [] => some []
  | a :: l =>
    match f a, optMap f l with
    | some b, some bs => some (b :: bs)
    | _, _ => none

/-- `ConstraintMatrixBuilder._build_compatibility`: one row per patient id
(first prescription row with that id), one column per therapist id (first
therapist row with that id).  `none` models the `iloc[0]` crash on an id with
no matching row. -/
def buildCompatibility (prescriptions : List PatientRec) (therapists : List TherapistRec)
    (patient_ids therapist_ids : List String) : Option (List (List Int)) :=
  optMap (fun pid =>
    (prescriptions.find? (fun r => r.patient_id = pid)).bind (fun pat =>
      optMap (fun tid =>
        (therapists.find? (fun t => t.staff_id = tid)).map (fun th =>
          compatEntry therapists pat tid th)) therapist_ids)) patient_ids

/-- `ConstraintMatrixBuilder._build_therapist_availability`: each row starts
all 0; the therapist's name (first row with the id) is looked up in the shift
table; a missing shift entry leaves the row all 0, otherwise each slot is set
from `check_shift_availability`. -/
def buildTherapistAvailability (therapists : List TherapistRec) (shifts : List ShiftRec)
    (therapist_ids : List String) : Option (List (List Int)) :=
  optMap (fun tid =>
    (therapists.find? (fun t => t.staff_id = tid)).map (fun th =>
      match shifts.find? (fun s => s.therapist_name = th.name) with
      | none => List.replicate generateTimeslots.length (0 : Int)
      | some sh =>
        generateTimeslots.map (fun slot =>
          if checkShiftAvailability sh.availability slot then (1 : Int) else 0))) therapist_ids

/-- The slots a prescription row blocks: the union of the parses of its three
annotation fields (a NaN field contributes nothing). -/
def blockedSlots (pat : PatientRec) : List String :=
  (match pat.bathing with | some s => parse_unavailable_times s | none => [])
  ++ (match pat.excretion with | some s => parse_unavailable_times s | none => [])
  ++ (match pat.other with | some s => parse_unavailable_times s | none => [])

/-- `ConstraintMatrixBuilder._build_patient_availability`: each row starts all
1 and the parsed blocked slots are set to 0. -/
def buildPatientAvailability (prescriptions : List PatientRec)
    (patient_ids : List String) : Option (List (List Int)) :=
  optMap (fun pid =>
    (prescriptions.find? (fun r => r.patient_id = pid)).map (fun pat =>
      generateTimeslots.map (fun slot =>
        if slot ∈ blockedSlots pat then (0 : Int) else 1))) patient_ids

/-! ## Deterministic scheduler (`deployment/schedule_agent/core/scheduler.py`) -/

/-- Matrix cell read with numpy-style indexing (out-of-range defaults to 0;
all theorems constrain indices to be in range). -/
def mget (m : List (List Int)) (i j : Nat) : Int := ((m.getD i []).getD j 0)

/-- Matrix cell write `m[i, j] = v`. -/
def mset (m : List (List Int)) (i j : Nat) (v : Int) : List (List Int) :=
  m.set i ((m.getD i []).set j v)

/-- `cost_matrix[i, :] = v`: overwrite a whole row with a constant. -/
def setRow (m : List (List Int)) (i : Nat) (v : Int) : List (List Int) :=
  m.set i ((m.getD i []).map (fun _ => v))

/-- `ConstraintMatrices` (`models/data_models.py`): four integer matrices plus
the parallel-indexed id and timeslot lists. -/
structure ConstraintMatrices where
  patient_availability : List (List Int)
  therapist_availability : List (List Int)
  compatibility : List (List Int)
  requirements : List Int
  patient_ids : List String
  therapist_ids : List String
  timeslots : List String
deriving DecidableEq, Repr

/-- `Assignment` (`models/data_models.py`). -/
structure Assignment where
  patient_id : String
  therapist_id : String
  timeslot : String
  duration_minutes : Int
deriving DecidableEq, Repr

/-- `Schedule` (`models/data_models.py`). -/
structure Schedule where
  assignments : List Assignment
  date : String
  unscheduled_patients : List String
deriving DecidableEq, Repr

/-- The dimensions of a `ConstraintMatrices` value are mutually consistent
(numpy shapes `(P, S)`, `(T, S)`, `(P, T)`, `(P,)` with `P`, `T`, `S` the
lengths of the id / timeslot lists). -/
def WF (m : ConstraintMatrices) : Prop :=
  m.patient_availability.length = m.patient_ids.length ∧
  (∀ r ∈ m.patient_availability, r.length = m.timeslots.length) ∧
  m.therapist_availability.length = m.therapist_ids.length ∧
  (∀ r ∈ m.therapist_availability, r.length = m.timeslots.length) ∧
  m.compatibility.length = m.patient_ids.length ∧
  (∀ r ∈ m.compatibility, r.length = m.therapist_ids.length) ∧
  m.requirements.length = m.patient_ids.length

instance (m : ConstraintMatrices) : Decidable (WF m) := by
  unfold WF; infer_instance

/-- `np.where(patient_avail[patient_idx] == 1)[0]`: the ascending indices of
the entries equal to 1. -/
def availableSlotsOf (row : List Int) : List Nat :=
  (List.range row.length).filter (fun s => row.getD s 0 = 1)

/-- First (lowest-index) minimum of a row, as `(value, index)`. -/
def rowArgmin : List Int → Option (Int × Nat)
  | [] => none
  | x :: xs =>
    match rowArgmin xs with
    | none => some (x, 0)
    | some (v, i) => if v < x then some (v, i + 1) else some (x, 0)

/-- `np.unravel_index(cost_matrix.argmin(), shape)` together with
`cost_matrix.min()`: the first minimum in row-major order, as
`(value, row, column)`.  `none` models the `ValueError` numpy raises on an
empty array. -/
def argmin2D : List (List Int) → Option (Int × Nat × Nat)
  | [] => none
  | r :: rs =>
    match rowArgmin r, argmin2D rs with
    | none, none => none
    | some (v, j), none => some (v, 0, j)
    | none, some (v, i, j) => some (v, i + 1, j)
    | some (v1, j1), some (v2, i2, j2) =>
      if v2 < v1 then some (v2, i2 + 1, j2) else some (v1, 0, j1)

/-- `np.sum(1 - therapist_avail[j])`: the workload count the scheduler uses,
i.e. the sum of `1 - entry` over therapist `j`'s whole availability row. -/
def workloadCount (tav : List (List Int)) (j : Nat) : Int :=
  ((tav.getD j []).map (fun x => 1 - x)).sum

/-- The per-patient cost matrix (scheduler lines 69-86): rows are the
patient's available slots, columns the therapists; an available, compatible
cell costs `-compatibility + 5 * workloadCount`, anything else costs the
sentinel 1000. -/
def buildCost (m : ConstraintMatrices) (p : Nat) (availSlots : List Nat)
    (tav : List (List Int)) : List (List Int) :=
  availSlots.map (fun s =>
    (List.range m.therapist_ids.length).map (fun j =>
      if mget tav j s = 1 then
        let c := mget m.compatibility p j
        if c > 0 then -c + 5 * workloadCount tav j else 1000
      else 1000))

/-- The greedy per-patient loop (scheduler lines 93-121).  Each step takes the
row-major argmin of the cost matrix; a minimum ≥ 1000 models the
`InfeasibleScheduleError` raise (`some (false, ...)`, carrying the partial
assignments the Python local variable held at the raise and the mutated
availability matrices); `none` models the uncaught `ValueError` of
`np.min` on an empty cost matrix. -/
def assignLoop (m : ConstraintMatrices) (p : Nat) (availSlots : List Nat) :
    Nat → List (List Int) → List (List Int) → List (List Int) → List Assignment →
    Option (Bool × List Assignment × List (List Int) × List (List Int))
  | 0, _, pav, tav, las => some (true, las, pav, tav)
  | need + 1, cost, pav, tav, las =>
    match argmin2D cost with
    | none => none
    | some (v, i, j) =>
      if v ≥ 1000 then some (false, las, pav, tav)
      else
        let s := availSlots.getD i 0
        let a : Assignment :=
          ⟨m.patient_ids.getD p "", m.therapist_ids.getD j "", m.timeslots.getD s "", 20⟩
        assignLoop m p availSlots need (setRow cost i 1000)
          (mset pav p s 0) (mset tav j s 0) (las ++ [a])

/-- `DeterministicScheduler._assign_patient`: infeasible up front when fewer
slots remain than required (no mutation), otherwise build the cost matrix and
run the greedy loop. -/
def assignPatient (m : ConstraintMatrices) (p : Nat) (requiredSlots : Int)
    (pav tav : List (List Int)) :
    Option (Bool × List Assignment × List (List Int) × List (List Int)) :=
  let availSlots := availableSlotsOf (pav.getD p [])
  if (availSlots.length : Int) < requiredSlots then some (false, [], pav, tav)
  else assignLoop m p availSlots requiredSlots.toNat (buildCost m p availSlots tav) pav tav []

/-- Stable insertion (descending keys; an element is placed after every
element with a key ≥ its own). -/
def insertDesc (key : Nat → Int) (i : Nat) : List Nat → List Nat
  | [] => [i]
  | j :: l => if key j < key i then i :: j :: l else j :: insertDesc key i l

/-- Model of `np.argsort(-requirements)`: patient indices in descending order
of requirement.  numpy's default kind is an (unstable) introsort; ties are
modelled here in stable input order, which matches numpy for small arrays —
see the C5 analysis for why the tie order is not in general guaranteed by the
source. -/
def argsortDesc (req : List Int) : List Nat :=
  (List.range req.length).foldl (fun acc i => insertDesc (fun k => req.getD k 0) i acc) []

/-- `DeterministicScheduler.schedule`'s patient loop: process each index,
extending the assignment list on success and the unscheduled list on the
caught `InfeasibleScheduleError` (the partial assignments of a failed patient
are dropped, the availability mutations are kept). -/
def scheduleAux (m : ConstraintMatrices) :
    List Nat → List (List Int) → List (List Int) → List Assignment → List String →
    Option Schedule
  | [], _, _, acc, uns => some ⟨acc, "", uns⟩
  | p :: rest, pav, tav, acc, uns =>
    let req := m.requirements.getD p 0
    match assignPatient m p (Int.fdiv req 20) pav tav with
    | none => none
    | some (true, las, pav2, tav2) => scheduleAux m rest pav2 tav2 (acc ++ las) uns
    | some (false, _, pav2, tav2) =>
      scheduleAux m rest pav2 tav2 acc (uns ++ [m.patient_ids.getD p ""])

/-- `DeterministicScheduler.schedule`: work on copies of the two availability
matrices, process patients in descending-requirement order, return the
schedule (`none` models an uncaught `ValueError` escaping the method). -/
def schedule (m : ConstraintMatrices) : Option Schedule :=
  scheduleAux m (argsortDesc m.requirements)
    m.patient_availability m.therapist_availability [] []

/-- Total assigned minutes of a patient id in a schedule: the sum of
`duration_minutes` over the assignments carrying that id. -/
def totalMinutes (s : Schedule) (pid : String) : Int :=
  ((s.assignments.filter (fun a => a.patient_id = pid)).map
    (fun a => a.duration_minutes)).sum

/-- Number of assignments carrying a given patient id. -/
def cntFor (l : List Assignment) (pid : String) : Nat :=
  (l.filter (fun a => a.patient_id = pid)).length

/-- Modelled from the spec: the per-patient cost matrix as the specification
describes it, where the workload penalty is `5 × (number of slots already
consumed by that therapist — assigned during this run — across all patients
so far)`, supplied as `consumed`.  Used only to compare against the
implemented `buildCost`. -/
def specCostMatrix (m : ConstraintMatrices) (p : Nat) (availSlots : List Nat)
    (tav : List (List Int)) (consumed : Nat → Nat) : List (List Int) :=
  availSlots.map (fun s =>
    (List.range m.therapist_ids.length).map (fun j =>
      if mget tav j s = 1 ∧ 0 < mget m.compatibility p j then
        -(mget m.compatibility p j) + 5 * (consumed j : Int)
      else 1000))

/-! ## Concrete inputs used by counterexamples and witnesses -/

/-- One patient (120 min), one fully available therapist, compatibility 100. -/
def exA : ConstraintMatrices :=
  { patient_availability := [List.replicate 18 1]
    therapist_availability := [List.replicate 18 1]
    compatibility := [[100]]
    requirements := [120]
    patient_ids := ["P1"]
    therapist_ids := ["T1"]
    timeslots := generateTimeslots }

/-- A patient needing 2 slots with 2 available slots, but a therapist
available in only one of them: the greedy loop makes one assignment, then hits
the sentinel and raises. -/
def exC3 : ConstraintMatrices :=
  { patient_availability := [[1, 1]]
    therapist_availability := [[1, 0]]
    compatibility := [[50]]
    requirements := [40]
    patient_ids := ["P"]
    therapist_ids := ["T"]
    timeslots := ["09:00-09:20", "09:20-09:40"] }

/-- Therapist T1 (compatibility 50) starts with one initially-unavailable
slot, therapist T2 (compatibility 48) is fully available; nothing has been
assigned yet. -/
def exC4 : ConstraintMatrices :=
  { patient_availability := [[1, 0]]
    therapist_availability := [[1, 0], [1, 1]]
    compatibility := [[50, 48]]
    requirements := [20]
    patient_ids := ["P"]
    therapist_ids := ["T1", "T2"]
    timeslots := ["09:00-09:20", "09:20-09:40"] }

/-- Builder input for the C6/C7 witnesses: a compatible same-ward therapist
and an exclusive therapist of a different ward. -/
def exThers : List TherapistRec :=
  [⟨"T1", "山田太郎", "男", "3E", false⟩,
   ⟨"TX", "佐藤花子", "女", "4W", true⟩]

/-- Builder input for the C6/C7/C9 witnesses: one patient of ward 3E with a
bathing annotation. -/
def exPats : List PatientRec :=
  [⟨"P", "3E", none, some "金・10:00-11:00", none, none⟩]

/-- Shift rows for the C8 witness. -/
def exShifts : List ShiftRec :=
  [⟨"山田太郎", some "○"⟩, ⟨"佐藤花子", some "PN"⟩]

/-- Matrices for the C6 witness: compatibility as built by
`buildCompatibility exPats exThers`, full availability. -/
def exC6 : ConstraintMatrices :=
  { patient_availability := [List.replicate 18 1]
    therapist_availability := [List.replicate 18 1, List.replicate 18 1]
    compatibility := [[40, 0]]
    requirements := [20]
    patient_ids := ["P"]
    therapist_ids := ["T1", "TX"]
    timeslots := generateTimeslots }

/-! ## Store-based model of the scheduler (for the frame property C10)

numpy arrays are aliased mutable objects: the store holds every availability
matrix, a `ConstraintMatrices` object holds references (store indices) to its
two availability arrays, and `.copy()` allocates fresh store cells.  The
compatibility matrix and requirements vector are only ever read by the
scheduler, so they are carried by value. -/

/-- A heap of integer matrices. -/
def Store : Type := List (List (List Int))

/-- Read the matrix at reference `r`. -/
def stGet (st : Store) (r : Nat) : List (List Int) :=
  List.getD st r []

/-- `arr[i, j] = v` on the matrix at reference `r`. -/
def stWrite (st : Store) (r i j : Nat) (v : Int) : Store :=
  List.set st r (mset (stGet st r) i j v)

/-- Length of the store (next fresh reference). -/
def stLen (st : Store) : Nat := List.length st

/-- A `ConstraintMatrices` whose two availability arrays live in the store. -/
structure ConstraintMatricesRef where
  pavRef : Nat
  tavRef : Nat
  compatibility : List (List Int)
  requirements : List Int
  patient_ids : List String
  therapist_ids : List String
  timeslots : List String

/-- Dereference: the plain `ConstraintMatrices` value a reference bundle
denotes in a store. -/
def toCM (st : Store) (mr : ConstraintMatricesRef) : ConstraintMatrices :=
  { patient_availability := stGet st mr.pavRef
    therapist_availability := stGet st mr.tavRef
    compatibility := mr.compatibility
    requirements := mr.requirements
    patient_ids := mr.patient_ids
    therapist_ids := mr.therapist_ids
    timeslots := mr.timeslots }

/-- The greedy per-patient loop acting on store references `pr`/`tr` for the
two working availability matrices (mirrors `assignLoop`). -/
def assignLoopST (m : ConstraintMatrices) (p : Nat) (availSlots : List Nat) (pr tr : Nat) :
    Nat → List (List Int) → Store → List Assignment →
    Option (Bool × List Assignment) × Store
  | 0, _, st, las => (some (true, las), st)
  | need + 1, cost, st, las =>
    match argmin2D cost with
    | none => (none, st)
    | some (v, i, j) =>
      if v ≥ 1000 then (some (false, las), st)
      else
        let s := availSlots.getD i 0
        let a : Assignment :=
          ⟨m.patient_ids.getD p "", m.therapist_ids.getD j "", m.timeslots.getD s "", 20⟩
        assignLoopST m p availSlots pr tr need (setRow cost i 1000)
          (stWrite (stWrite st pr p s 0) tr j s 0) (las ++ [a])

/-- `_assign_patient` acting on the store (mirrors `assignPatient`). -/
def assignPatientST (m : ConstraintMatrices) (p : Nat) (requiredSlots : Int)
    (pr tr : Nat) (st : Store) : Option (Bool × List Assignment) × Store :=
  let availSlots := availableSlotsOf ((stGet st pr).getD p [])
  if (availSlots.length : Int) < requiredSlots then (some (false, []), st)
  else
    assignLoopST m p availSlots pr tr requiredSlots.toNat
      (buildCost m p availSlots (stGet st tr)) st []

/-- The patient loop of `schedule` acting on the store (mirrors
`scheduleAux`). -/
def scheduleAuxST (m : ConstraintMatrices) (pr tr : Nat) :
    List Nat → Store → List Assignment → List String → Option Schedule × Store
  | [], st, acc, uns => (some ⟨acc, "", uns⟩, st)
  | p :: rest, st, acc, uns =>
    let req := m.requirements.getD p 0
    match assignPatientST m p (Int.fdiv req 20) pr tr st with
    | (none, st2) => (none, st2)
    | (some (true, las), st2) => scheduleAuxST m pr tr rest st2 (acc ++ las) uns
    | (some (false, _), st2) =>
      scheduleAuxST m pr tr rest st2 acc (uns ++ [m.patient_ids.getD p ""])

/-- `DeterministicScheduler.schedule` on the store: `.copy()` allocates two
fresh cells for the working availability matrices (scheduler lines 19-21);
every subsequent mutation goes through those references. -/
def scheduleST (st : Store) (mr : ConstraintMatricesRef) : Option Schedule × Store :=
  let m := toCM st mr
  let pr := stLen st
  let tr := stLen st + 1
  let st1 : Store :=
    List.append st [m.patient_availability, m.therapist_availability]
  scheduleAuxST m pr tr (argsortDesc m.requirements) st1 [] []

/-- The schedule the embedding computes on `exA` (six morning slots with the
single therapist). -/
def exASched : Schedule :=
  { assignments :=
      [⟨"P1", "T1", "09:00-09:20", 20⟩, ⟨"P1", "T1", "09:20-09:40", 20⟩,
       ⟨"P1", "T1", "09:40-10:00", 20⟩, ⟨"P1", "T1", "10:00-10:20", 20⟩,
       ⟨"P1", "T1", "10:20-10:40", 20⟩, ⟨"P1", "T1", "10:40-11:00", 20⟩]
    date := ""
    unscheduled_patients := [] }

/-- The schedule the embedding computes on `exC6` (one slot with the
compatible therapist; the exclusive other-ward therapist is never used). -/
def exC6Sched : Schedule :=
  { assignments := [⟨"P", "T1", "09:00-09:20", 20⟩]
    date := ""
    unscheduled_patients := [] }

/-- A two-cell store holding `exA`'s availability matrices. -/
def exStore : Store := [exA.patient_availability, exA.therapist_availability]

/-- `exA` as a reference bundle into `exStore`. -/
def exMR : ConstraintMatricesRef :=
  { pavRef := 0
    tavRef := 1
    compatibility := exA.compatibility
    requirements := exA.requirements
    patient_ids := exA.patient_ids
    therapist_ids := exA.therapist_ids
    timeslots := exA.timeslots }

/-! ## Basic lemmas about the embedding primitives -/

theorem getD_lt {α} (l : List α) (i : Nat) (d : α) (h : i < l.length) :
    l.getD i d = l[i] := by
  simp [List.getD, List.getElem?_eq_getElem, h]

theorem getD_map_lt {α β} (f : α → β) (l : List α) (i : Nat) (d : α) (e : β)
    (h : i < l.length) : (l.map f).getD i e = f (l.getD i d) := by
  rw [getD_lt _ _ _ (by simpa using h), getD_lt _ _ _ h]
  simp

theorem getD_range_lt (n j : Nat) (h : j < n) : (List.range n).getD j 0 = j := by
  rw [getD_lt _ _ _ (by simpa using h)]
  simp

theorem mget_buildCost (m : ConstraintMatrices) (p : Nat) (availSlots : List Nat)
    (tav : List (List Int)) (i j : Nat)
    (hi : i < availSlots.length) (hj : j < m.therapist_ids.length) :
    mget (buildCost m p availSlots tav) i j =
      (if mget tav j (availSlots.getD i 0) = 1 then
        if 0 < mget m.compatibility p j then
          -(mget m.compatibility p j) + 5 * workloadCount tav j
        else 1000
       else 1000) := by
  unfold buildCost mget
  rw [getD_map_lt _ availSlots i 0 [] hi,
      getD_map_lt _ (List.range m.therapist_ids.length) j 0 0 (by simpa using hj),
      getD_range_lt _ j hj]


theorem mget_eq_getElem (m : List (List Int)) (i j : Nat) :
    mget m i j = (((m[i]?).getD []))[j]?.getD 0 := by
  simp [mget, List.getD_eq_getElem?_getD]

theorem length_mset (m : List (List Int)) (i j : Nat) (v : Int) :
    (mset m i j v).length = m.length := by
  simp [mset]

theorem row_length_mset (m : List (List Int)) (i j i2 : Nat) (v : Int) :
    ((mset m i j v).getD i2 []).length = (m.getD i2 []).length := by
  simp only [mset, List.getD_eq_getElem?_getD, List.getElem?_set]
  by_cases h : i = i2
  · subst h
    by_cases hl : i < m.length
    · simp [hl, List.getElem?_eq_getElem hl, List.getD_eq_getElem?_getD]
    · simp [hl, List.getElem?_eq_none (Nat.le_of_not_lt hl)]
  · simp [h]

theorem mget_mset_self (m : List (List Int)) (i j : Nat) (v : Int)
    (hi : i < m.length) (hj : j < (m.getD i []).length) :
    mget (mset m i j v) i j = v := by
  rw [mget_eq_getElem, mset, List.getElem?_set]
  simp only [if_pos rfl, hi, if_true]
  rw [Option.getD_some, List.getElem?_set]
  have hj2 : j < (m.getD i []).length := hj
  simp only [if_pos rfl, hj2, if_true]
  rfl

theorem mget_mset_ne (m : List (List Int)) (i j i2 j2 : Nat) (v : Int)
    (h : i2 ≠ i ∨ j2 ≠ j) :
    mget (mset m i j v) i2 j2 = mget m i2 j2 := by
  rw [mget_eq_getElem, mget_eq_getElem, mset, List.getElem?_set]
  by_cases he : i = i2
  · subst he
    have hj : j2 ≠ j := h.resolve_left (by simp)
    by_cases hl : i < m.length
    · simp only [if_pos rfl, hl, if_true, Option.getD_some]
      rw [List.getElem?_set]
      simp [Ne.symm hj]
    · simp [hl, List.getElem?_eq_none (Nat.le_of_not_lt hl)]
  · simp [he]

theorem length_setRow (m : List (List Int)) (i : Nat) (v : Int) :
    (setRow m i v).length = m.length := by
  simp [setRow]

theorem row_length_setRow (m : List (List Int)) (i i2 : Nat) (v : Int) :
    ((setRow m i v).getD i2 []).length = (m.getD i2 []).length := by
  simp only [setRow, List.getD_eq_getElem?_getD, List.getElem?_set]
  by_cases h : i = i2
  · subst h
    by_cases hl : i < m.length
    · simp [hl, List.getElem?_eq_getElem hl, List.getD_eq_getElem?_getD]
    · simp [hl, List.getElem?_eq_none (Nat.le_of_not_lt hl)]
  · simp [h]

theorem mget_setRow_self (m : List (List Int)) (i j : Nat) (v : Int)
    (hi : i < m.length) (hj : j < (m.getD i []).length) :
    mget (setRow m i v) i j = v := by
  rw [mget_eq_getElem, setRow, List.getElem?_set]
  simp only [if_pos rfl, hi, if_true, Option.getD_some]
  have hj2 : j < (m.getD i []).length := hj
  rw [List.getElem?_map, List.getElem?_eq_getElem (by simpa [List.getD_eq_getElem?_getD] using hj2)]
  rfl

theorem mget_setRow_ne (m : List (List Int)) (i i2 j2 : Nat) (v : Int)
    (h : i2 ≠ i) :
    mget (setRow m i v) i2 j2 = mget m i2 j2 := by
  rw [mget_eq_getElem, mget_eq_getElem, setRow, List.getElem?_set]
  simp [Ne.symm h]

theorem rowArgmin_some (r : List Int) (v : Int) (j : Nat)
    (h : rowArgmin r = some (v, j)) : j < r.length ∧ r.getD j 0 = v := by
  induction r generalizing v j with
  | nil => simp [rowArgmin] at h
  | cons x xs ih =>
    rw [rowArgmin] at h
    cases hx : rowArgmin xs with
    | none =>
      rw [hx] at h
      dsimp only at h
      cases h
      simp
    | some p =>
      obtain ⟨v2, j2⟩ := p
      rw [hx] at h
      dsimp only at h
      by_cases hc : v2 < x
      · rw [if_pos hc] at h
        cases h
        obtain ⟨h1, h2⟩ := ih _ _ hx
        constructor
        · simpa using Nat.succ_lt_succ h1
        · simpa using h2
      · rw [if_neg hc] at h
        cases h
        simp

theorem argmin2D_some (m : List (List Int)) (v : Int) (i j : Nat)
    (h : argmin2D m = some (v, i, j)) :
    i < m.length ∧ j < (m.getD i []).length ∧ mget m i j = v := by
  induction m generalizing v i j with
  | nil => simp [argmin2D] at h
  | cons r rs ih =>
    rw [argmin2D] at h
    cases hr : rowArgmin r with
    | none =>
      rw [hr] at h
      cases hrs : argmin2D rs with
      | none => rw [hrs] at h; cases h
      | some p =>
        obtain ⟨v2, i2, j2⟩ := p
        rw [hrs] at h
        dsimp only at h
        cases h
        obtain ⟨h1, h2, h3⟩ := ih _ _ _ hrs
        refine ⟨by simpa using Nat.succ_lt_succ h1, by simpa using h2, ?_⟩
        simpa [mget] using h3
    | some p =>
      obtain ⟨v1, j1⟩ := p
      rw [hr] at h
      cases hrs : argmin2D rs with
      | none =>
        rw [hrs] at h
        dsimp only at h
        cases h
        obtain ⟨h1, h2⟩ := rowArgmin_some _ _ _ hr
        exact ⟨by simp, by simpa using h1, by simpa [mget] using h2⟩
      | some p2 =>
        obtain ⟨v2, i2, j2⟩ := p2
        rw [hrs] at h
        dsimp only at h
        by_cases hc : v2 < v1
        · rw [if_pos hc] at h
          cases h
          obtain ⟨h1, h2, h3⟩ := ih _ _ _ hrs
          refine ⟨by simpa using Nat.succ_lt_succ h1, by simpa using h2, ?_⟩
          simpa [mget] using h3
        · rw [if_neg hc] at h
          cases h
          obtain ⟨h1, h2⟩ := rowArgmin_some _ _ _ hr
          exact ⟨by simp, by simpa using h1, by simpa [mget] using h2⟩

theorem availableSlotsOf_nodup (row : List Int) : (availableSlotsOf row).Nodup :=
  (List.nodup_range _).filter _

theorem availableSlotsOf_mem (row : List Int) (s : Nat)
    (h : s ∈ availableSlotsOf row) : s < row.length ∧ row.getD s 0 = 1 := by
  unfold availableSlotsOf at h
  have h1 := List.of_mem_filter h
  have h2 := List.mem_of_mem_filter h
  exact ⟨by simpa using h2, by simpa using h1⟩

theorem insertDesc_perm (key : Nat → Int) (i : Nat) (l : List Nat) :
    (insertDesc key i l).Perm (i :: l) := by
  induction l with
  | nil => simp [insertDesc]
  | cons j tl ih =>
    rw [insertDesc]
    by_cases hc : key j < key i
    · simp [hc]
    · rw [if_neg hc]
      exact (ih.cons j).trans (List.Perm.swap i j tl)

theorem argsortDesc_perm (req : List Int) :
    (argsortDesc req).Perm (List.range req.length) := by
  have main : ∀ (l : List Nat) (acc : List Nat),
      (l.foldl (fun acc i => insertDesc (fun k => req.getD k 0) i acc) acc).Perm (acc ++ l) := by
    intro l
    induction l with
    | nil => simp
    | cons x tl ih =>
      intro acc
      rw [List.foldl_cons]
      refine (ih _).trans ?_
      refine ((insertDesc_perm (fun k => req.getD k 0) x acc).append_right tl).trans ?_
      exact List.perm_middle.symm
  have h := main (List.range req.length) []
  rw [List.nil_append] at h
  exact h

/-! ## C4: per-patient cost-matrix construction -/

/-- C4 (counterexample): the claim states the workload penalty is
`5 × (slots already consumed by the therapist during this run)`.  On `exC4`
no slot has been consumed yet (the run is at its very first patient), so the
claimed cost of the (slot 0, T1) cell is `-50 + 5*0 = -50`; the implementation
instead charges `5` for T1's initially-unavailable slot and yields `-45`.
The divergence is observable: the implemented scheduler assigns T2, while
under the claimed costs T1 (cost −50 < −48) would win. -/
theorem C4_counterexample :
    buildCost exC4 0 (availableSlotsOf (exC4.patient_availability.getD 0 []))
        exC4.therapist_availability = [[-45, -48]] ∧
    specCostMatrix exC4 0 (availableSlotsOf (exC4.patient_availability.getD 0 []))
        exC4.therapist_availability (fun _ => 0) = [[-50, -48]] ∧
    buildCost exC4 0 (availableSlotsOf (exC4.patient_availability.getD 0 []))
        exC4.therapist_availability ≠
      specCostMatrix exC4 0 (availableSlotsOf (exC4.patient_availability.getD 0 []))
        exC4.therapist_availability (fun _ => 0) ∧
    schedule exC4 = some ⟨[⟨"P", "T2", "09:00-09:20", 20⟩], "", []⟩ :=
  ⟨by decide, by decide, by decide, by decide⟩

/-- C4 (amended): for every available-slot row `i` and therapist column `j`,
the cost cell is `-compatibility + 5 × (sum of (1 − entry) over the
therapist's whole working-availability row)` — i.e. the penalty counts the
therapist's unavailable slots, whether initially unavailable or consumed by an
assignment of this run — when the therapist is available in the slot and
compatibility is positive, and the sentinel 1000 otherwise. -/
theorem C4_cost_matrix (m : ConstraintMatrices) (p : Nat) (availSlots : List Nat)
    (tav : List (List Int)) (i j : Nat)
    (hi : i < availSlots.length) (hj : j < m.therapist_ids.length) :
    mget (buildCost m p availSlots tav) i j =
      if mget tav j (availSlots.getD i 0) = 1 ∧ 0 < mget m.compatibility p j
      then -(mget m.compatibility p j) + 5 * workloadCount tav j
      else (1000 : Int) := by
  rw [mget_buildCost m p availSlots tav i j hi hj]
  by_cases h1 : mget tav j (availSlots.getD i 0) = 1
  · by_cases h2 : 0 < mget m.compatibility p j
    · rw [if_pos h1, if_pos h2, if_pos ⟨h1, h2⟩]
    · rw [if_pos h1, if_neg h2, if_neg]
      intro hcon
      exact h2 hcon.2
  · rw [if_neg h1, if_neg]
    intro hcon
    exact h1 hcon.1

/-- Witness for C4 (amended) at `exC4`, cell (0, 0). -/
theorem C4_cost_matrix_witness :
    (0 : Nat) < (availableSlotsOf (exC4.patient_availability.getD 0 [])).length ∧
    (0 : Nat) < exC4.therapist_ids.length ∧
    mget (buildCost exC4 0 (availableSlotsOf (exC4.patient_availability.getD 0 []))
        exC4.therapist_availability) 0 0 =
      if mget exC4.therapist_availability 0
            ((availableSlotsOf (exC4.patient_availability.getD 0 [])).getD 0 0) = 1 ∧
          0 < mget exC4.compatibility 0 0
      then -(mget exC4.compatibility 0 0) + 5 * workloadCount exC4.therapist_availability 0
      else (1000 : Int) :=
  ⟨by decide, by decide, C4_cost_matrix exC4 0 _ _ 0 0 (by decide) (by decide)⟩

/-! ## C3: fate of partial assignments when the sentinel is hit mid-patient -/

/-- C3 (counterexample): on `exC3` the greedy invocation for patient `P`
makes one assignment (09:00, therapist T) and then hits the sentinel; the
raise carries away the partial list — `_assign_patient`'s caller catches the
error and never extends the schedule (and the availability mutations persist:
`[[0,1]]`, `[[0,0]]`).  The returned `Schedule` has `P` unscheduled and NO
assignments, refuting "those k already-made assignments are kept in the
returned Schedule". -/
theorem C3_counterexample :
    assignPatient exC3 0 (Int.fdiv (exC3.requirements.getD 0 0) 20)
        exC3.patient_availability exC3.therapist_availability
      = some (false, [⟨"P", "T", "09:00-09:20", 20⟩], [[0, 1]], [[0, 0]]) ∧
    schedule exC3 = some ⟨[], "", ["P"]⟩ :=
  ⟨by decide, by decide⟩

/-! ## Builder characterisations (C7, C8, C9) -/

theorem optMap_some {α β : Type} (f : α → Option β) (l : List α) (res : List β)
    (h : optMap f l = some res) :
    res.length = l.length ∧
      ∀ i, i < l.length → ∀ d d2, f (l.getD i d) = some (res.getD i d2) := by
  induction l generalizing res with
  | nil =>
    rw [optMap] at h
    cases h
    exact ⟨rfl, by intro i hi; cases hi⟩
  | cons a tl ih =>
    rw [optMap] at h
    cases hfa : f a with
    | none => rw [hfa] at h; cases h
    | some b =>
      rw [hfa] at h
      cases hrest : optMap f tl with
      | none => rw [hrest] at h; cases h
      | some bs =>
        rw [hrest] at h
        dsimp only at h
        cases h
        obtain ⟨hlen, hidx⟩ := ih _ hrest
        refine ⟨by simpa using hlen, ?_⟩
        intro i hi d d2
        cases i with
        | zero => simpa using hfa
        | succ k =>
          have hk : k < tl.length := by simpa using hi
          simpa using hidx k hk d d2

/-- C7: compatibility scoring rule.  For every (patient row, therapist column)
of a successfully built compatibility matrix: if the therapist id resolves as
the patient's primary therapist the score is 100 (this case precedes the
exclusivity check); else if the therapist is exclusive with a ward different
from the patient's the score is 0; else the score is 20, plus 20 for an equal
ward, plus 40 for the gender bonus (primary therapist exists, resolvable, and
of equal gender) — and every non-primary score is at most 80. -/
theorem C7_compatibility_scoring
    (prescriptions : List PatientRec) (therapists : List TherapistRec)
    (patient_ids therapist_ids : List String) (M : List (List Int))
    (hb : buildCompatibility prescriptions therapists patient_ids therapist_ids = some M)
    (p t : Nat) (hp : p < patient_ids.length) (ht : t < therapist_ids.length) :
    ∃ pat th,
      prescriptions.find? (fun r => r.patient_id = patient_ids.getD p "") = some pat ∧
      therapists.find? (fun r => r.staff_id = therapist_ids.getD t "") = some th ∧
      mget M p t =
        (if primaryTid therapists pat = some (therapist_ids.getD t "") then 100
         else if th.senju && th.ward ≠ pat.ward then 0
         else 20 + (if th.ward = pat.ward then 20 else 0)
                 + (if genderBonus therapists pat th then 40 else 0)) ∧
      (primaryTid therapists pat ≠ some (therapist_ids.getD t "") → mget M p t ≤ 80) := by
  obtain ⟨hlen, hrow⟩ := optMap_some _ _ _ hb
  have h1 := hrow p hp "" []
  rw [Option.bind_eq_some] at h1
  obtain ⟨pat, hpat, hinner⟩ := h1
  obtain ⟨hlen2, hcell⟩ := optMap_some _ _ _ hinner
  have h2 := hcell t ht "" 0
  rw [Option.map_eq_some'] at h2
  obtain ⟨th, hth, hentry⟩ := h2
  refine ⟨pat, th, hpat, hth, ?_, ?_⟩
  · rw [mget, ← hentry, compatEntry]
  · intro hnp
    rw [mget, ← hentry, compatEntry, if_neg hnp]
    split_ifs <;> norm_num

theorem checkShift_iff (av : Option String) (slot : String) :
    checkShiftAvailability av slot = true ↔
      ∃ code, av = some code ∧
        (pyStrip code = "○" ∨
         (pyStrip code = "PN" ∧ (slotStart slot).1 < 12) ∨
         (pyStrip code = "AN" ∧ 13 ≤ (slotStart slot).1)) := by
  cases av with
  | none => simp [checkShiftAvailability]
  | some sc =>
    rw [checkShiftAvailability]
    by_cases hg : (sc = "" || pyStrip sc = "" || sc = "nan") = true
    · rw [if_pos hg]
      simp only [Bool.or_eq_true, decide_eq_true_eq] at hg
      constructor
      · intro h; cases h
      · rintro ⟨code, hcode, hdisj⟩
        cases hcode
        exfalso
        rcases hg with (h | h) | h
        · subst h
          rcases hdisj with h2 | ⟨h2, _⟩ | ⟨h2, _⟩ <;> revert h2 <;> decide
        · rw [h] at hdisj
          rcases hdisj with h2 | ⟨h2, _⟩ | ⟨h2, _⟩ <;> revert h2 <;> decide
        · subst h
          rcases hdisj with h2 | ⟨h2, _⟩ | ⟨h2, _⟩ <;> revert h2 <;> decide
    · rw [if_neg hg]
      simp only [Bool.or_eq_true, decide_eq_true_eq, not_or] at hg
      obtain ⟨⟨hg1, hg2⟩, hg3⟩ := hg
      by_cases h1 : pyStrip sc = "○"
      · simp [h1]
      · rw [if_neg h1]
        by_cases h2 : pyStrip sc = "AN"
        · rw [if_pos h2]
          constructor
          · intro h
            exact ⟨sc, rfl, Or.inr (Or.inr ⟨h2, by simpa using h⟩)⟩
          · rintro ⟨code, hcode, hdisj⟩
            cases hcode
            rcases hdisj with h3 | ⟨h3, _⟩ | ⟨_, h4⟩
            · exact absurd h3 h1
            · exact absurd (h2.symm.trans h3) (by decide)
            · simpa using h4
        · rw [if_neg h2]
          by_cases h3 : pyStrip sc = "PN"
          · rw [if_pos h3]
            constructor
            · intro h
              exact ⟨sc, rfl, Or.inr (Or.inl ⟨h3, by simpa using h⟩)⟩
            · rintro ⟨code, hcode, hdisj⟩
              cases hcode
              rcases hdisj with h4 | ⟨_, h5⟩ | ⟨h4, _⟩
              · exact absurd h4 h1
              · simpa using h5
              · exact absurd (h3.symm.trans h4) (by decide)
          · rw [if_neg h3]
            constructor
            · intro h; cases h
            · rintro ⟨code, hcode, hdisj⟩
              cases hcode
              rcases hdisj with h4 | ⟨h4, _⟩ | ⟨h4, _⟩
              · exact absurd h4 h1
              · exact absurd h4 h3
              · exact absurd h4 h2

/-- C8: therapist availability is fail-closed with shift-code semantics.  Each
row of a successfully built therapist-availability matrix has exactly the 18
slots; a therapist with no shift entry keeps the initial all-0 row; otherwise
each cell is 0/1 and equals 1 exactly when the (non-missing, non-empty,
non-`'nan'`) shift code is the full-day code `○`, or the morning code `PN`
with slot start hour < 12, or the afternoon code `AN` with slot start hour
≥ 13 — any other code leaves every slot 0. -/
theorem C8_shift_availability
    (therapists : List TherapistRec) (shifts : List ShiftRec)
    (therapist_ids : List String) (M : List (List Int))
    (hb : buildTherapistAvailability therapists shifts therapist_ids = some M)
    (i : Nat) (hi : i < therapist_ids.length) :
    ∃ th, therapists.find? (fun r => r.staff_id = therapist_ids.getD i "") = some th ∧
      (M.getD i []).length = 18 ∧
      ∀ j, j < 18 →
        (mget M i j = 0 ∨ mget M i j = 1) ∧
        (mget M i j = 1 ↔
          ∃ sh, shifts.find? (fun s => s.therapist_name = th.name) = some sh ∧
            ∃ code, sh.availability = some code ∧
              (pyStrip code = "○" ∨
               (pyStrip code = "PN" ∧ (slotStart (generateTimeslots.getD j "")).1 < 12) ∨
               (pyStrip code = "AN" ∧ 13 ≤ (slotStart (generateTimeslots.getD j "")).1))) := by
  obtain ⟨hlen, hrowf⟩ := optMap_some _ _ _ hb
  have h1 := hrowf i hi "" []
  rw [Option.map_eq_some'] at h1
  obtain ⟨th, hth, hrowval⟩ := h1
  have hlen18 : generateTimeslots.length = 18 := by decide
  refine ⟨th, hth, ?_, ?_⟩
  · rw [← hrowval]
    cases hsh : shifts.find? (fun s => s.therapist_name = th.name) with
    | none => simp [hlen18]
    | some sh => simp [hlen18]
  · intro j hj
    have hmg : mget M i j = (M.getD i []).getD j 0 := rfl
    cases hsh : shifts.find? (fun s => s.therapist_name = th.name) with
    | none =>
      have hrow0 : M.getD i [] = List.replicate 18 (0 : Int) := by
        rw [← hrowval, hsh]
        simp [hlen18]
      have hz : mget M i j = 0 := by
        rw [hmg, hrow0, getD_lt _ _ _ (by simpa using hj)]
        exact List.getElem_replicate _ _
      refine ⟨Or.inl hz, ?_, ?_⟩
      · intro hcon
        rw [hz] at hcon
        cases hcon
      · rintro ⟨sh, hsh2, _⟩
        cases hsh2
    | some sh =>
      have hrow1 : M.getD i [] = generateTimeslots.map (fun slot =>
          if checkShiftAvailability sh.availability slot then (1 : Int) else 0) := by
        rw [← hrowval, hsh]
      have hj2 : j < generateTimeslots.length := by rw [hlen18]; exact hj
      have hent : mget M i j =
          (if checkShiftAvailability sh.availability (generateTimeslots.getD j "") then (1 : Int) else 0) := by
        rw [hmg, hrow1, getD_map_lt _ _ _ "" _ hj2]
      by_cases hc : checkShiftAvailability sh.availability (generateTimeslots.getD j "") = true
      · rw [if_pos hc] at hent
        refine ⟨Or.inr hent, ?_, ?_⟩
        · intro _
          obtain ⟨code, hcode, hdisj⟩ := (checkShift_iff _ _).mp hc
          exact ⟨sh, rfl, code, hcode, hdisj⟩
        · intro _
          exact hent
      · rw [if_neg hc] at hent
        refine ⟨Or.inl hent, ?_, ?_⟩
        · intro hcon
          rw [hent] at hcon
          cases hcon
        · rintro ⟨sh2, hsh2, code, hcode, hdisj⟩
          cases hsh2
          exact absurd ((checkShift_iff _ _).mpr ⟨code, hcode, hdisj⟩) hc

/-- Witness for C7 at the concrete builder input `exPats`/`exThers`, cell
(patient 0, therapist 1 = the exclusive other-ward therapist). -/
theorem C7_compatibility_scoring_witness :
    buildCompatibility exPats exThers ["P"] ["T1", "TX"] = some [[40, 0]] ∧
    (0 : Nat) < (["P"] : List String).length ∧
    (1 : Nat) < (["T1", "TX"] : List String).length ∧
    (∃ pat th,
      exPats.find? (fun r => r.patient_id = (["P"] : List String).getD 0 "") = some pat ∧
      exThers.find? (fun r => r.staff_id = (["T1", "TX"] : List String).getD 1 "") = some th ∧
      mget [[40, 0]] 0 1 =
        (if primaryTid exThers pat = some ((["T1", "TX"] : List String).getD 1 "") then 100
         else if th.senju && th.ward ≠ pat.ward then 0
         else 20 + (if th.ward = pat.ward then 20 else 0)
                 + (if genderBonus exThers pat th then 40 else 0)) ∧
      (primaryTid exThers pat ≠ some ((["T1", "TX"] : List String).getD 1 "") →
        mget [[40, 0]] 0 1 ≤ 80)) :=
  ⟨by decide, by decide, by decide,
   C7_compatibility_scoring exPats exThers ["P"] ["T1", "TX"] [[40, 0]]
     (by decide) 0 1 (by decide) (by decide)⟩

/-- Witness for C8 at `exThers`/`exShifts`, therapist 1 (shift code `PN`). -/
theorem C8_shift_availability_witness :
    buildTherapistAvailability exThers exShifts ["T1", "TX"]
        = some [List.replicate 18 1, List.replicate 9 1 ++ List.replicate 9 0] ∧
    (1 : Nat) < (["T1", "TX"] : List String).length ∧
    (∃ th, exThers.find? (fun r =>
          r.staff_id = (["T1", "TX"] : List String).getD 1 "") = some th ∧
      (([List.replicate 18 (1 : Int), List.replicate 9 1 ++ List.replicate 9 0]).getD 1 []).length = 18 ∧
      ∀ j, j < 18 →
        (mget [List.replicate 18 1, List.replicate 9 1 ++ List.replicate 9 0] 1 j = 0 ∨
         mget [List.replicate 18 1, List.replicate 9 1 ++ List.replicate 9 0] 1 j = 1) ∧
        (mget [List.replicate 18 1, List.replicate 9 1 ++ List.replicate 9 0] 1 j = 1 ↔
          ∃ sh, exShifts.find? (fun s => s.therapist_name = th.name) = some sh ∧
            ∃ code, sh.availability = some code ∧
              (pyStrip code = "○" ∨
               (pyStrip code = "PN" ∧ (slotStart (generateTimeslots.getD j "")).1 < 12) ∨
               (pyStrip code = "AN" ∧ 13 ≤ (slotStart (generateTimeslots.getD j "")).1)))) :=
  ⟨by decide, by decide,
   C8_shift_availability exThers exShifts ["T1", "TX"]
     [List.replicate 18 1, List.replicate 9 1 ++ List.replicate 9 0]
     (by decide) 1 (by decide)⟩

/-! ## C9: patient blocked-time parsing -/

theorem parse_eq_match (s : String) :
    parse_unavailable_times s =
      (match extractedTimes s with
       | [] => []
       | [t] =>
         generateTimeslots.filter (fun slot =>
           pairLe t (slotStart slot) && pairLt (slotStart slot) (t.1 + 1, t.2))
       | t1 :: t2 :: _ =>
         generateTimeslots.filter (fun slot =>
           pairLe t1 (slotStart slot) && pairLt (slotStart slot) t2)) := by
  rw [parse_unavailable_times, extractedTimes]
  by_cases h : (s = "" || pyStrip s = "" || s = "nan") = true
  · rw [if_pos h, if_pos h]
  · rw [if_neg h, if_neg h]

/-- C9: patient blocked-time parsing is fail-open.  For every annotation
string: when the (day-prefix-stripped, normalized) text contains no `HH:MM`
pattern — in particular when it is empty or `'nan'` — no slot is excluded;
when it contains exactly one pattern `t`, exactly the slots whose start lies
in the one-hour block `[t, t+1h)` are excluded; when it contains two or more,
exactly the slots whose start lies in the half-open range `[first, second)`
are excluded.  The last conjunct ties this to the built patient-availability
matrix: a cell is 0 exactly when its slot is in the union of the parses of the
row's three annotation fields. -/
theorem C9_blocked_time_parsing (s slot : String) (hslot : slot ∈ generateTimeslots) :
    (extractedTimes s = [] → parse_unavailable_times s = []) ∧
    (∀ t, extractedTimes s = [t] →
      (slot ∈ parse_unavailable_times s ↔
        (pairLe t (slotStart slot) && pairLt (slotStart slot) (t.1 + 1, t.2)) = true)) ∧
    (∀ t1 t2 rest2, extractedTimes s = t1 :: t2 :: rest2 →
      (slot ∈ parse_unavailable_times s ↔
        (pairLe t1 (slotStart slot) && pairLt (slotStart slot) t2) = true)) ∧
    (∀ prescriptions patient_ids PA,
      buildPatientAvailability prescriptions patient_ids = some PA →
      ∀ p, p < patient_ids.length → ∀ pat,
        prescriptions.find? (fun r => r.patient_id = patient_ids.getD p "") = some pat →
        ∀ j, j < 18 →
          (mget PA p j = 0 ↔ generateTimeslots.getD j "" ∈ blockedSlots pat)) := by
  refine ⟨?_, ?_, ?_, ?_⟩
  · intro h
    rw [parse_eq_match, h]
  · intro t h
    rw [parse_eq_match, h]
    simp only [List.mem_filter, hslot, true_and]
  · intro t1 t2 rest2 h
    rw [parse_eq_match, h]
    simp only [List.mem_filter, hslot, true_and]
  · intro prescriptions patient_ids PA hb p hp pat hpat j hj
    obtain ⟨hlen, hrowf⟩ := optMap_some _ _ _ hb
    have h1 := hrowf p hp "" []
    rw [Option.map_eq_some'] at h1
    obtain ⟨pat2, hpat2, hrowval⟩ := h1
    rw [hpat] at hpat2
    injection hpat2 with hpp
    subst hpp
    have hj2 : j < generateTimeslots.length := by
      rw [(by decide : generateTimeslots.length = 18)]
      exact hj
    have hmg : mget PA p j = (PA.getD p []).getD j 0 := rfl
    rw [hmg, ← hrowval, getD_map_lt _ _ _ "" _ hj2]
    by_cases hmem : generateTimeslots.getD j "" ∈ blockedSlots pat
    · rw [if_pos hmem]
      simp only [List.getD_eq_getElem?_getD] at hmem
      simp [hmem]
    · rw [if_neg hmem]
      simp only [List.getD_eq_getElem?_getD] at hmem
      simp [hmem]

/-- Witness for C9: the two-times annotation `"金・10:00-11:00"` and the slot
`10:20-10:40`, whose start lies inside `[10:00, 11:00)`. -/
theorem C9_blocked_time_parsing_witness :
    "10:20-10:40" ∈ generateTimeslots ∧
    ((extractedTimes "金・10:00-11:00" = [] → parse_unavailable_times "金・10:00-11:00" = []) ∧
     (∀ t, extractedTimes "金・10:00-11:00" = [t] →
       ("10:20-10:40" ∈ parse_unavailable_times "金・10:00-11:00" ↔
         (pairLe t (slotStart "10:20-10:40") &&
          pairLt (slotStart "10:20-10:40") (t.1 + 1, t.2)) = true)) ∧
     (∀ t1 t2 rest2, extractedTimes "金・10:00-11:00" = t1 :: t2 :: rest2 →
       ("10:20-10:40" ∈ parse_unavailable_times "金・10:00-11:00" ↔
         (pairLe t1 (slotStart "10:20-10:40") &&
          pairLt (slotStart "10:20-10:40") t2) = true)) ∧
     (∀ prescriptions patient_ids PA,
       buildPatientAvailability prescriptions patient_ids = some PA →
       ∀ p, p < patient_ids.length → ∀ pat,
         prescriptions.find? (fun r => r.patient_id = patient_ids.getD p "") = some pat →
         ∀ j, j < 18 →
           (mget PA p j = 0 ↔ generateTimeslots.getD j "" ∈ blockedSlots pat))) :=
  ⟨by decide, C9_blocked_time_parsing "金・10:00-11:00" "10:20-10:40" (by decide)⟩

/-! ## Helper lemmas for the scheduler invariants -/

theorem getD_mem {α} (l : List α) (i : Nat) (d : α) (h : i < l.length) :
    l.getD i d ∈ l := by
  rw [getD_lt _ _ _ h]
  exact List.getElem_mem h

theorem indexOf_getD {α} [DecidableEq α] (l : List α) (hnd : l.Nodup) (j : Nat)
    (d : α) (hj : j < l.length) : l.indexOf (l.getD j d) = j := by
  rw [getD_lt _ _ _ hj]
  exact List.indexOf_getElem hnd j hj

theorem getD_inj {α} [DecidableEq α] (l : List α) (hnd : l.Nodup) (i j : Nat)
    (d : α) (hi : i < l.length) (hj : j < l.length)
    (he : l.getD i d = l.getD j d) : i = j := by
  rw [getD_lt _ _ _ hi, getD_lt _ _ _ hj] at he
  exact (hnd.getElem_inj_iff).mp he

theorem mget_mset_zero (tav : List (List Int)) (t s j2 s2 : Nat)
    (h : mget tav t s = 0) : mget (mset tav j2 s2 0) t s = 0 := by
  by_cases he : t = j2 ∧ s = s2
  · obtain ⟨rfl, rfl⟩ := he
    by_cases h1 : t < tav.length
    · by_cases h2 : s < (tav.getD t []).length
      · exact mget_mset_self tav t s 0 h1 h2
      · rw [mset, mget_eq_getElem, List.getElem?_set]
        simp only [if_pos rfl, h1, if_true, Option.getD_some]
        rw [List.set_eq_of_length_le (Nat.le_of_not_lt h2)]
        rw [show mget tav t s = (tav.getD t []).getD s 0 from rfl,
            List.getD_eq_getElem?_getD] at h
        exact h
    · rw [mset, List.set_eq_of_length_le (Nat.le_of_not_lt h1)]
      exact h
  · rw [mget_mset_ne]
    · exact h
    · by_cases h1 : t = j2
      · subst h1
        exact Or.inr (fun h2 => he ⟨rfl, h2⟩)
      · exact Or.inl h1

theorem cntFor_append (l1 l2 : List Assignment) (pid : String) :
    cntFor (l1 ++ l2) pid = cntFor l1 pid + cntFor l2 pid := by
  simp [cntFor]

theorem cntFor_eq_zero (l : List Assignment) (pid : String)
    (h : ∀ a ∈ l, a.patient_id ≠ pid) : cntFor l pid = 0 := by
  rw [cntFor, List.length_eq_zero, List.filter_eq_nil_iff]
  intro a ha
  simpa using h a ha

theorem cntFor_all (l : List Assignment) (pid : String)
    (h : ∀ a ∈ l, a.patient_id = pid) : cntFor l pid = l.length := by
  rw [cntFor, List.filter_eq_self.mpr]
  intro a ha
  simpa using h a ha

theorem totalMinutes_eq (s : Schedule) (pid : String)
    (h : ∀ a ∈ s.assignments, a.duration_minutes = 20) :
    totalMinutes s pid = 20 * (cntFor s.assignments pid : Int) := by
  rw [totalMinutes, cntFor]
  have hall : ∀ a ∈ s.assignments.filter (fun a => a.patient_id = pid),
      a.duration_minutes = 20 := fun a ha => h a (List.mem_of_mem_filter ha)
  generalize s.assignments.filter (fun a => a.patient_id = pid) = l at hall
  induction l with
  | nil => simp
  | cons a tl ih =>
    rw [List.map_cons, List.sum_cons, hall a (by simp),
        ih (fun b hb => hall b (by simp [hb]))]
    simp [Nat.cast_succ]
    ring

theorem assignLoop_structure (m : ConstraintMatrices) (p : Nat) (availSlots : List Nat) :
    ∀ fuel cost pav tav las flag las2 pav2 tav2,
    assignLoop m p availSlots fuel cost pav tav las = some (flag, las2, pav2, tav2) →
    ∃ new, las2 = las ++ new ∧
      (∀ a ∈ new, a.patient_id = m.patient_ids.getD p "" ∧ a.duration_minutes = 20) ∧
      (flag = true → new.length = fuel) := by
  intro fuel
  induction fuel with
  | zero =>
    intro cost pav tav las flag las2 pav2 tav2 h
    rw [assignLoop] at h
    cases h
    exact ⟨[], by simp, by simp, fun _ => rfl⟩
  | succ fl ih =>
    intro cost pav tav las flag las2 pav2 tav2 h
    rw [assignLoop] at h
    cases ha : argmin2D cost with
    | none => rw [ha] at h; cases h
    | some t =>
      obtain ⟨v, i, j⟩ := t
      rw [ha] at h
      dsimp only at h
      by_cases hv : v ≥ 1000
      · rw [if_pos hv] at h
        cases h
        exact ⟨[], by simp, by simp, fun hcon => by cases hcon⟩
      · rw [if_neg hv] at h
        obtain ⟨new, hlas, hprop, hlen⟩ := ih _ _ _ _ _ _ _ _ h
        refine ⟨⟨m.patient_ids.getD p "", m.therapist_ids.getD j "",
            m.timeslots.getD (availSlots.getD i 0) "", 20⟩ :: new, ?_, ?_, ?_⟩
        · rw [hlas]
          simp
        · intro a ha2
          rcases List.mem_cons.mp ha2 with h1 | h1
          · subst h1; exact ⟨rfl, rfl⟩
          · exact hprop a h1
        · intro hf
          rw [List.length_cons, hlen hf]

theorem assignLoop_dims (m : ConstraintMatrices) (p : Nat) (availSlots : List Nat) :
    ∀ fuel cost pav tav las flag las2 pav2 tav2,
    assignLoop m p availSlots fuel cost pav tav las = some (flag, las2, pav2, tav2) →
    (pav2.length = pav.length ∧ (∀ q, ((pav2.getD q []).length = (pav.getD q []).length)) ∧
     tav2.length = tav.length ∧ (∀ q, ((tav2.getD q []).length = (tav.getD q []).length)) ∧
     (∀ t s, mget tav t s = 0 → mget tav2 t s = 0) ∧
     (∀ t s, mget pav t s = 0 → mget pav2 t s = 0)) := by
  intro fuel
  induction fuel with
  | zero =>
    intro cost pav tav las flag las2 pav2 tav2 h
    rw [assignLoop] at h
    cases h
    exact ⟨rfl, fun _ => rfl, rfl, fun _ => rfl, fun _ _ h => h, fun _ _ h => h⟩
  | succ fl ih =>
    intro cost pav tav las flag las2 pav2 tav2 h
    rw [assignLoop] at h
    cases ha : argmin2D cost with
    | none => rw [ha] at h; cases h
    | some t =>
      obtain ⟨v, i, j⟩ := t
      rw [ha] at h
      dsimp only at h
      by_cases hv : v ≥ 1000
      · rw [if_pos hv] at h
        cases h
        exact ⟨rfl, fun _ => rfl, rfl, fun _ => rfl, fun _ _ h => h, fun _ _ h => h⟩
      · rw [if_neg hv] at h
        obtain ⟨h1, h2, h3, h4, h5, h6⟩ := ih _ _ _ _ _ _ _ _ h
        refine ⟨h1.trans (length_mset _ _ _ _), ?_,
                h3.trans (length_mset _ _ _ _), ?_, ?_, ?_⟩
        · intro q
          exact (h2 q).trans (row_length_mset _ _ _ _ _)
        · intro q
          exact (h4 q).trans (row_length_mset _ _ _ _ _)
        · intro t s hz
          exact h5 t s (mget_mset_zero _ _ _ _ _ hz)
        · intro t s hz
          exact h6 t s (mget_mset_zero _ _ _ _ _ hz)

theorem assignLoop_invariant (m : ConstraintMatrices) (p : Nat) (availSlots : List Nat)
    (hT : m.therapist_ids.Nodup) (hS : m.timeslots.Nodup)
    (hAvN : availSlots.Nodup)
    (hAvS : ∀ x ∈ availSlots, x < m.timeslots.length)
    (hp : p < m.patient_ids.length) (A : List Assignment) :
    ∀ fuel cost pav tav las flag las2 pav2 tav2,
    assignLoop m p availSlots fuel cost pav tav las = some (flag, las2, pav2, tav2) →
    tav.length = m.therapist_ids.length →
    (∀ q, q < m.therapist_ids.length → (tav.getD q []).length = m.timeslots.length) →
    cost.length = availSlots.length →
    (∀ q, q < cost.length → (cost.getD q []).length = m.therapist_ids.length) →
    (∀ a ∈ A ++ las,
      m.therapist_ids.indexOf a.therapist_id < m.therapist_ids.length ∧
      m.timeslots.indexOf a.timeslot < m.timeslots.length ∧
      mget tav (m.therapist_ids.indexOf a.therapist_id) (m.timeslots.indexOf a.timeslot) = 0) →
    (∀ a ∈ A ++ las, ∀ i2, i2 < cost.length →
      availSlots.getD i2 0 = m.timeslots.indexOf a.timeslot →
      1000 ≤ mget cost i2 (m.therapist_ids.indexOf a.therapist_id)) →
    (∀ i2 j2, i2 < cost.length → j2 < m.therapist_ids.length →
      mget cost i2 j2 < 1000 → 0 < mget m.compatibility p j2) →
    (A ++ las).Pairwise
      (fun a b => ¬(a.therapist_id = b.therapist_id ∧ a.timeslot = b.timeslot)) →
    (∀ a ∈ A ++ las, ∃ q, q < m.patient_ids.length ∧
      a.patient_id = m.patient_ids.getD q "" ∧
      0 < mget m.compatibility q (m.therapist_ids.indexOf a.therapist_id)) →
    ((∀ a ∈ A ++ las2,
        m.therapist_ids.indexOf a.therapist_id < m.therapist_ids.length ∧
        m.timeslots.indexOf a.timeslot < m.timeslots.length ∧
        mget tav2 (m.therapist_ids.indexOf a.therapist_id)
          (m.timeslots.indexOf a.timeslot) = 0) ∧
     (A ++ las2).Pairwise
       (fun a b => ¬(a.therapist_id = b.therapist_id ∧ a.timeslot = b.timeslot)) ∧
     (∀ a ∈ A ++ las2, ∃ q, q < m.patient_ids.length ∧
        a.patient_id = m.patient_ids.getD q "" ∧
        0 < mget m.compatibility q (m.therapist_ids.indexOf a.therapist_id))) := by
  intro fuel
  induction fuel with
  | zero =>
    intro cost pav tav las flag las2 pav2 tav2 h _ _ _ _ hI1 _ _ hI4 hI5
    rw [assignLoop] at h
    cases h
    exact ⟨hI1, hI4, hI5⟩
  | succ fl ih =>
    intro cost pav tav las flag las2 pav2 tav2 h Htl Htr Hcl Hcr hI1 hI2 hI3 hI4 hI5
    rw [assignLoop] at h
    cases ha : argmin2D cost with
    | none => rw [ha] at h; cases h
    | some t =>
      obtain ⟨v, i, j⟩ := t
      rw [ha] at h
      dsimp only at h
      by_cases hv : v ≥ 1000
      · rw [if_pos hv] at h
        cases h
        exact ⟨hI1, hI4, hI5⟩
      · rw [if_neg hv] at h
        have hvlt : v < 1000 := Int.lt_of_not_ge hv
        obtain ⟨hi, hjr, hval⟩ := argmin2D_some cost v i j ha
        have hjT : j < m.therapist_ids.length := by rw [← Hcr i hi]; exact hjr
        have hiA : i < availSlots.length := by rw [← Hcl]; exact hi
        have hsS : availSlots.getD i 0 < m.timeslots.length :=
          hAvS _ (getD_mem availSlots i 0 hiA)
        have htIdx : m.therapist_ids.indexOf (m.therapist_ids.getD j "") = j :=
          indexOf_getD m.therapist_ids hT j "" hjT
        have hsIdx : m.timeslots.indexOf (m.timeslots.getD (availSlots.getD i 0) "")
            = availSlots.getD i 0 :=
          indexOf_getD m.timeslots hS (availSlots.getD i 0) "" hsS
        -- the new assignment
        set anew : Assignment :=
          ⟨m.patient_ids.getD p "", m.therapist_ids.getD j "",
           m.timeslots.getD (availSlots.getD i 0) "", 20⟩ with hanew
        have g1 : m.therapist_ids.indexOf anew.therapist_id = j := htIdx
        have g2 : m.timeslots.indexOf anew.timeslot = availSlots.getD i 0 := hsIdx
        have g0 : anew.patient_id = m.patient_ids.getD p "" := rfl
        -- distinctness of the new pair from every previous assignment
        have hfresh : ∀ a ∈ A ++ las,
            ¬(a.therapist_id = anew.therapist_id ∧ a.timeslot = anew.timeslot) := by
          rintro a ha2 ⟨he1, he2⟩
          have ht2 : m.therapist_ids.indexOf a.therapist_id = j := by
            rw [he1]; exact htIdx
          have hs2 : m.timeslots.indexOf a.timeslot = availSlots.getD i 0 := by
            rw [he2]; exact hsIdx
          have := hI2 a ha2 i hi hs2.symm
          rw [ht2, hval] at this
          exact absurd hvlt (Int.not_lt.mpr this)
        have hmem_split : ∀ a, a ∈ A ++ (las ++ [anew]) → a ∈ A ++ las ∨ a = anew := by
          intro a ha2
          rw [← List.append_assoc] at ha2
          rcases List.mem_append.mp ha2 with h1 | h1
          · exact Or.inl h1
          · exact Or.inr (by simpa using h1)
        refine ih (setRow cost i 1000) _ (mset tav j (availSlots.getD i 0) 0)
          (las ++ [anew]) flag las2 pav2 tav2 h ?_ ?_ ?_ ?_ ?_ ?_ ?_ ?_ ?_
        · rw [length_mset, Htl]
        · intro q hq
          rw [row_length_mset]
          exact Htr q hq
        · rw [length_setRow, Hcl]
        · intro q hq
          rw [length_setRow] at hq
          rw [row_length_setRow]
          exact Hcr q hq
        · -- I1 for the extended list
          intro a ha2
          rcases hmem_split a ha2 with h1 | h1
          · obtain ⟨g1, g2, g3⟩ := hI1 a h1
            exact ⟨g1, g2, mget_mset_zero _ _ _ _ _ g3⟩
          · subst h1
            refine ⟨?_, ?_, ?_⟩
            · rw [g1]; exact hjT
            · rw [g2]; exact hsS
            · rw [g1, g2]
              exact mget_mset_self tav j (availSlots.getD i 0) 0
                (by rw [Htl]; exact hjT)
                (by rw [Htr j hjT]; exact hsS)
        · -- I2 for the extended list and invalidated cost matrix
          intro a ha2 i2 hi2 heq
          rw [length_setRow] at hi2
          rcases hmem_split a ha2 with h1 | h1
          · by_cases hii : i2 = i
            · subst hii
              have hrl : m.therapist_ids.indexOf a.therapist_id
                  < (cost.getD i2 []).length := by
                rw [Hcr i2 hi2]
                exact (hI1 a h1).1
              rw [mget_setRow_self cost i2 _ 1000 hi2 hrl]
            · rw [mget_setRow_ne cost i i2 _ 1000 hii]
              exact hI2 a h1 i2 hi2 heq
          · subst h1
            rw [g2] at heq
            have hii : i2 = i := getD_inj availSlots hAvN i2 i 0 (Hcl ▸ hi2) hiA heq
            subst hii
            have hrl : m.therapist_ids.indexOf anew.therapist_id
                < (cost.getD i2 []).length := by
              rw [Hcr i2 hi2, g1]
              exact hjT
            rw [mget_setRow_self cost i2 _ 1000 hi2 hrl]
        · -- I3 for the invalidated cost matrix
          intro i2 j2 hi2 hj2 hlt
          rw [length_setRow] at hi2
          by_cases hii : i2 = i
          · subst hii
            have hrl : j2 < (cost.getD i2 []).length := by rw [Hcr i2 hi2]; exact hj2
            rw [mget_setRow_self cost i2 j2 1000 hi2 hrl] at hlt
            exact absurd hlt (by norm_num)
          · rw [mget_setRow_ne cost i i2 j2 1000 hii] at hlt
            exact hI3 i2 j2 hi2 hj2 hlt
        · -- pairwise distinctness extended
          rw [← List.append_assoc, List.pairwise_append]
          refine ⟨hI4, List.pairwise_singleton _ _, ?_⟩
          intro a ha2 b hb
          rw [List.mem_singleton] at hb
          subst hb
          exact hfresh a ha2
        · -- I5 extended
          intro a ha2
          rcases hmem_split a ha2 with h1 | h1
          · exact hI5 a h1
          · subst h1
            refine ⟨p, hp, g0, ?_⟩
            rw [g1]
            exact hI3 i j hi hjT (by rw [hval]; exact hvlt)

theorem buildCost_dims (m : ConstraintMatrices) (p : Nat) (availSlots : List Nat)
    (tav : List (List Int)) :
    (buildCost m p availSlots tav).length = availSlots.length ∧
    (∀ q, q < (buildCost m p availSlots tav).length →
      ((buildCost m p availSlots tav).getD q []).length = m.therapist_ids.length) := by
  refine ⟨by simp [buildCost], ?_⟩
  intro q hq
  rw [buildCost] at hq ⊢
  rw [List.length_map] at hq
  rw [getD_map_lt _ _ _ 0 _ hq]
  simp

theorem assignPatient_invariant (m : ConstraintMatrices)
    (hT : m.therapist_ids.Nodup) (hS : m.timeslots.Nodup)
    (p : Nat) (rs : Int) (pav tav : List (List Int))
    (flag : Bool) (las2 : List Assignment) (pav2 tav2 : List (List Int))
    (A : List Assignment)
    (h : assignPatient m p rs pav tav = some (flag, las2, pav2, tav2))
    (hp : p < m.patient_ids.length)
    (Htl : tav.length = m.therapist_ids.length)
    (Htr : ∀ q, q < m.therapist_ids.length → (tav.getD q []).length = m.timeslots.length)
    (Hpr : ∀ q, (pav.getD q []).length ≤ m.timeslots.length)
    (hI1 : ∀ a ∈ A,
      m.therapist_ids.indexOf a.therapist_id < m.therapist_ids.length ∧
      m.timeslots.indexOf a.timeslot < m.timeslots.length ∧
      mget tav (m.therapist_ids.indexOf a.therapist_id) (m.timeslots.indexOf a.timeslot) = 0)
    (hI4 : A.Pairwise
      (fun a b => ¬(a.therapist_id = b.therapist_id ∧ a.timeslot = b.timeslot)))
    (hI5 : ∀ a ∈ A, ∃ q, q < m.patient_ids.length ∧
      a.patient_id = m.patient_ids.getD q "" ∧
      0 < mget m.compatibility q (m.therapist_ids.indexOf a.therapist_id)) :
    ((∀ a ∈ A ++ las2,
        m.therapist_ids.indexOf a.therapist_id < m.therapist_ids.length ∧
        m.timeslots.indexOf a.timeslot < m.timeslots.length ∧
        mget tav2 (m.therapist_ids.indexOf a.therapist_id)
          (m.timeslots.indexOf a.timeslot) = 0) ∧
     (A ++ las2).Pairwise
       (fun a b => ¬(a.therapist_id = b.therapist_id ∧ a.timeslot = b.timeslot)) ∧
     (∀ a ∈ A ++ las2, ∃ q, q < m.patient_ids.length ∧
        a.patient_id = m.patient_ids.getD q "" ∧
        0 < mget m.compatibility q (m.therapist_ids.indexOf a.therapist_id))) := by
  rw [assignPatient] at h
  by_cases hearly :
      ((availableSlotsOf (pav.getD p [])).length : Int) < rs
  · rw [if_pos hearly] at h
    cases h
    simp only [List.append_nil]
    exact ⟨hI1, hI4, hI5⟩
  · rw [if_neg hearly] at h
    have hAvN := availableSlotsOf_nodup (pav.getD p [])
    have hAvS : ∀ x ∈ availableSlotsOf (pav.getD p []), x < m.timeslots.length := by
      intro x hx
      exact Nat.lt_of_lt_of_le (availableSlotsOf_mem _ _ hx).1 (Hpr p)
    obtain ⟨hcl, hcr⟩ := buildCost_dims m p (availableSlotsOf (pav.getD p [])) tav
    refine assignLoop_invariant m p (availableSlotsOf (pav.getD p []))
      hT hS hAvN hAvS hp A rs.toNat
      (buildCost m p (availableSlotsOf (pav.getD p [])) tav)
      pav tav [] flag las2 pav2 tav2 (by simpa using h) Htl Htr hcl hcr
      ?_ ?_ ?_ ?_ ?_
    · simpa using hI1
    · -- I2 at the freshly built cost matrix
      intro a ha i2 hi2 heq
      rw [hcl] at hi2
      obtain ⟨g1, g2, g3⟩ := hI1 a (by simpa using ha)
      rw [mget_buildCost m p (availableSlotsOf (pav.getD p [])) tav i2
            (m.therapist_ids.indexOf a.therapist_id) hi2 g1, heq,
          if_neg (by simp [g3])]
    · -- I3 at the freshly built cost matrix
      intro i2 j2 hi2 hj2 hlt
      rw [hcl] at hi2
      rw [mget_buildCost m p _ tav i2 j2 hi2 hj2] at hlt
      by_cases hb1 : mget tav j2 ((availableSlotsOf (pav.getD p [])).getD i2 0) = 1
      · rw [if_pos hb1] at hlt
        by_cases hb2 : 0 < mget m.compatibility p j2
        · exact hb2
        · rw [if_neg hb2] at hlt
          exact absurd hlt (by norm_num)
      · rw [if_neg hb1] at hlt
        exact absurd hlt (by norm_num)
    · simpa using hI4
    · simpa using hI5

theorem assignPatient_dims (m : ConstraintMatrices) (p : Nat) (rs : Int)
    (pav tav : List (List Int)) (flag : Bool) (las2 : List Assignment)
    (pav2 tav2 : List (List Int))
    (h : assignPatient m p rs pav tav = some (flag, las2, pav2, tav2)) :
    pav2.length = pav.length ∧ (∀ q, (pav2.getD q []).length = (pav.getD q []).length) ∧
    tav2.length = tav.length ∧ (∀ q, (tav2.getD q []).length = (tav.getD q []).length) := by
  rw [assignPatient] at h
  by_cases hearly : ((availableSlotsOf (pav.getD p [])).length : Int) < rs
  · rw [if_pos hearly] at h
    cases h
    exact ⟨rfl, fun _ => rfl, rfl, fun _ => rfl⟩
  · rw [if_neg hearly] at h
    obtain ⟨h1, h2, h3, h4, _, _⟩ :=
      assignLoop_dims m p (availableSlotsOf (pav.getD p [])) rs.toNat _ _ _ _ _ _ _ _
        (by simpa using h)
    exact ⟨h1, h2, h3, h4⟩

theorem scheduleAux_invariant (m : ConstraintMatrices)
    (hT : m.therapist_ids.Nodup) (hS : m.timeslots.Nodup) :
    ∀ order pav tav acc uns s,
    scheduleAux m order pav tav acc uns = some s →
    (∀ q ∈ order, q < m.patient_ids.length) →
    tav.length = m.therapist_ids.length →
    (∀ q, q < m.therapist_ids.length → (tav.getD q []).length = m.timeslots.length) →
    (∀ q, (pav.getD q []).length ≤ m.timeslots.length) →
    (∀ a ∈ acc,
      m.therapist_ids.indexOf a.therapist_id < m.therapist_ids.length ∧
      m.timeslots.indexOf a.timeslot < m.timeslots.length ∧
      mget tav (m.therapist_ids.indexOf a.therapist_id)
        (m.timeslots.indexOf a.timeslot) = 0) →
    acc.Pairwise
      (fun a b => ¬(a.therapist_id = b.therapist_id ∧ a.timeslot = b.timeslot)) →
    (∀ a ∈ acc, ∃ q, q < m.patient_ids.length ∧
      a.patient_id = m.patient_ids.getD q "" ∧
      0 < mget m.compatibility q (m.therapist_ids.indexOf a.therapist_id)) →
    (s.assignments.Pairwise
       (fun a b => ¬(a.therapist_id = b.therapist_id ∧ a.timeslot = b.timeslot)) ∧
     (∀ a ∈ s.assignments, ∃ q, q < m.patient_ids.length ∧
        a.patient_id = m.patient_ids.getD q "" ∧
        0 < mget m.compatibility q (m.therapist_ids.indexOf a.therapist_id))) := by
  intro order
  induction order with
  | nil =>
    intro pav tav acc uns s h _ _ _ _ _ hI4 hI5
    rw [scheduleAux] at h
    cases h
    exact ⟨hI4, hI5⟩
  | cons p rest ih =>
    intro pav tav acc uns s h horder Htl Htr Hpr hI1 hI4 hI5
    rw [scheduleAux] at h
    cases hap : assignPatient m p (Int.fdiv (m.requirements.getD p 0) 20) pav tav with
    | none => rw [hap] at h; cases h
    | some r =>
      obtain ⟨flag, las2, pav2, tav2⟩ := r
      rw [hap] at h
      have hp : p < m.patient_ids.length := horder p (by simp)
      obtain ⟨hJ1, hJ4, hJ5⟩ := assignPatient_invariant m hT hS p _ pav tav
        flag las2 pav2 tav2 acc hap hp Htl Htr Hpr hI1 hI4 hI5
      obtain ⟨hd1, hd2, hd3, hd4⟩ := assignPatient_dims m p _ pav tav flag las2 pav2 tav2 hap
      have Htl2 : tav2.length = m.therapist_ids.length := hd3.trans Htl
      have Htr2 : ∀ q, q < m.therapist_ids.length →
          (tav2.getD q []).length = m.timeslots.length := by
        intro q hq
        rw [hd4 q]
        exact Htr q hq
      have Hpr2 : ∀ q, (pav2.getD q []).length ≤ m.timeslots.length := by
        intro q
        rw [hd2 q]
        exact Hpr q
      have horder2 : ∀ q ∈ rest, q < m.patient_ids.length := by
        intro q hq
        exact horder q (by simp [hq])
      cases flag with
      | true =>
        dsimp only at h
        exact ih pav2 tav2 (acc ++ las2) uns s h horder2 Htl2 Htr2 Hpr2 hJ1 hJ4 hJ5
      | false =>
        dsimp only at h
        refine ih pav2 tav2 acc (uns ++ [m.patient_ids.getD p ""]) s h horder2
          Htl2 Htr2 Hpr2 ?_ ?_ ?_
        · intro a ha
          exact hJ1 a (List.mem_append.mpr (Or.inl ha))
        · exact hJ4.sublist (List.sublist_append_left acc las2)
        · intro a ha
          exact hJ5 a (List.mem_append.mpr (Or.inl ha))

theorem wf_dims (m : ConstraintMatrices) (hwf : WF m) :
    m.therapist_availability.length = m.therapist_ids.length ∧
    (∀ q, q < m.therapist_ids.length →
      (m.therapist_availability.getD q []).length = m.timeslots.length) ∧
    (∀ q, (m.patient_availability.getD q []).length ≤ m.timeslots.length) ∧
    (∀ q ∈ argsortDesc m.requirements, q < m.patient_ids.length) := by
  obtain ⟨w1, w2, w3, w4, w5, w6, w7⟩ := hwf
  refine ⟨w3, ?_, ?_, ?_⟩
  · intro q hq
    exact w4 _ (getD_mem _ q [] (by rw [w3]; exact hq))
  · intro q
    by_cases hq : q < m.patient_availability.length
    · rw [w2 _ (getD_mem _ q [] hq)]
    · rw [List.getD_eq_default _ _ (Nat.le_of_not_lt hq)]
      simp
  · intro q hq
    have h2 : q ∈ List.range m.requirements.length :=
      (argsortDesc_perm m.requirements).mem_iff.mp hq
    rw [List.mem_range] at h2
    rw [← w7]
    exact h2

/-- C2: no double-booking.  In a returned `Schedule`, no two distinct
assignments share the same (therapist_id, timeslot) pair: within one patient's
loop each chosen cost-matrix row (slot) is invalidated, and a consumed
(therapist, slot) cell is sentinel-priced for every later patient. -/
theorem C2_no_double_booking (m : ConstraintMatrices) (s : Schedule)
    (hwf : WF m) (hndt : m.therapist_ids.Nodup) (hnds : m.timeslots.Nodup)
    (hs : schedule m = some s) :
    s.assignments.Pairwise
      (fun a b => ¬(a.therapist_id = b.therapist_id ∧ a.timeslot = b.timeslot)) := by
  obtain ⟨htavl, htavr, hpavr, horder⟩ := wf_dims m hwf
  exact (scheduleAux_invariant m hndt hnds (argsortDesc m.requirements)
    m.patient_availability m.therapist_availability [] [] s hs horder htavl htavr hpavr
    (by simp) List.Pairwise.nil (by simp)).1

/-- Witness for C2 at `exA`. -/
theorem C2_no_double_booking_witness :
    WF exA ∧ exA.therapist_ids.Nodup ∧ exA.timeslots.Nodup ∧
    schedule exA = some exASched ∧
    exASched.assignments.Pairwise
      (fun a b => ¬(a.therapist_id = b.therapist_id ∧ a.timeslot = b.timeslot)) :=
  ⟨by decide, by decide, by decide, by decide,
   C2_no_double_booking exA exASched (by decide) (by decide) (by decide) (by decide)⟩

/-- C6: forbidden pairings are never assigned.  First conjunct: no assignment
in a returned schedule pairs a patient row and therapist column whose
compatibility entry is 0 (the greedy loop only ever picks cells priced from a
strictly positive compatibility).  Second conjunct: in particular, when the
compatibility matrix comes from the builder, an exclusive therapist whose ward
differs from the patient's ward and who is not the patient's primary therapist
(the builder scores that pair 0) is never paired with that patient. -/
theorem C6_forbidden_pairings (m : ConstraintMatrices) (s : Schedule)
    (hwf : WF m) (hndp : m.patient_ids.Nodup) (hndt : m.therapist_ids.Nodup)
    (hnds : m.timeslots.Nodup) (hs : schedule m = some s) :
    (∀ a ∈ s.assignments, ∀ pq t, pq < m.patient_ids.length →
      t < m.therapist_ids.length →
      a.patient_id = m.patient_ids.getD pq "" →
      a.therapist_id = m.therapist_ids.getD t "" →
      mget m.compatibility pq t ≠ 0) ∧
    (∀ prescriptions therapists,
      buildCompatibility prescriptions therapists m.patient_ids m.therapist_ids
        = some m.compatibility →
      ∀ pq t, pq < m.patient_ids.length → t < m.therapist_ids.length →
      ∀ pat th,
        prescriptions.find? (fun r => r.patient_id = m.patient_ids.getD pq "") = some pat →
        therapists.find? (fun r => r.staff_id = m.therapist_ids.getD t "") = some th →
        th.senju = true → th.ward ≠ pat.ward →
        primaryTid therapists pat ≠ some (m.therapist_ids.getD t "") →
        ∀ a ∈ s.assignments,
          ¬(a.patient_id = m.patient_ids.getD pq "" ∧
            a.therapist_id = m.therapist_ids.getD t "")) := by
  obtain ⟨htavl, htavr, hpavr, horder⟩ := wf_dims m hwf
  have hI5 := (scheduleAux_invariant m hndt hnds (argsortDesc m.requirements)
    m.patient_availability m.therapist_availability [] [] s hs horder htavl htavr hpavr
    (by simp) List.Pairwise.nil (by simp)).2
  have part1 : ∀ a ∈ s.assignments, ∀ pq t, pq < m.patient_ids.length →
      t < m.therapist_ids.length →
      a.patient_id = m.patient_ids.getD pq "" →
      a.therapist_id = m.therapist_ids.getD t "" →
      mget m.compatibility pq t ≠ 0 := by
    intro a ha pq t hpq ht hid1 hid2
    obtain ⟨q, hq, hqid, hqpos⟩ := hI5 a ha
    have hqq : q = pq := by
      refine getD_inj m.patient_ids hndp q pq "" hq hpq ?_
      rw [← hqid, ← hid1]
    subst hqq
    have htt : m.therapist_ids.indexOf a.therapist_id = t := by
      rw [hid2]
      exact indexOf_getD m.therapist_ids hndt t "" ht
    rw [htt] at hqpos
    exact (ne_of_lt hqpos).symm
  refine ⟨part1, ?_⟩
  intro prescriptions therapists hb pq t hpq ht pat th hpat hth hsenju hward hprim
  intro a ha hcon
  -- the builder scores this pair 0
  obtain ⟨hlen, hrowf⟩ := optMap_some _ _ _ hb
  have h1 := hrowf pq hpq "" []
  rw [Option.bind_eq_some] at h1
  obtain ⟨pat2, hpat2, hinner⟩ := h1
  rw [hpat] at hpat2
  injection hpat2 with hpp
  subst hpp
  obtain ⟨hlen2, hcell⟩ := optMap_some _ _ _ hinner
  have h2 := hcell t ht "" 0
  rw [Option.map_eq_some'] at h2
  obtain ⟨th2, hth2, hentry⟩ := h2
  rw [hth] at hth2
  injection hth2 with hqq2
  subst hqq2
  have hzero : mget m.compatibility pq t = 0 := by
    rw [show mget m.compatibility pq t
        = (m.compatibility.getD pq []).getD t 0 from rfl, ← hentry, compatEntry,
      if_neg hprim, if_pos (by simp [hsenju, hward])]
  exact part1 a ha pq t hpq ht hcon.1 hcon.2 hzero

/-- Witness for C6 at `exC6` with the exclusive other-ward therapist `TX`
(therapist column 1), whose builder score is 0. -/
theorem C6_forbidden_pairings_witness :
    WF exC6 ∧ exC6.patient_ids.Nodup ∧ exC6.therapist_ids.Nodup ∧
    exC6.timeslots.Nodup ∧ schedule exC6 = some exC6Sched ∧
    ((∀ a ∈ exC6Sched.assignments, ∀ pq t, pq < exC6.patient_ids.length →
        t < exC6.therapist_ids.length →
        a.patient_id = exC6.patient_ids.getD pq "" →
        a.therapist_id = exC6.therapist_ids.getD t "" →
        mget exC6.compatibility pq t ≠ 0) ∧
     (∀ prescriptions therapists,
        buildCompatibility prescriptions therapists exC6.patient_ids exC6.therapist_ids
          = some exC6.compatibility →
        ∀ pq t, pq < exC6.patient_ids.length → t < exC6.therapist_ids.length →
        ∀ pat th,
          prescriptions.find? (fun r => r.patient_id = exC6.patient_ids.getD pq "") = some pat →
          therapists.find? (fun r => r.staff_id = exC6.therapist_ids.getD t "") = some th →
          th.senju = true → th.ward ≠ pat.ward →
          primaryTid therapists pat ≠ some (exC6.therapist_ids.getD t "") →
          ∀ a ∈ exC6Sched.assignments,
            ¬(a.patient_id = exC6.patient_ids.getD pq "" ∧
              a.therapist_id = exC6.therapist_ids.getD t ""))) :=
  ⟨by decide, by decide, by decide, by decide, by decide,
   C6_forbidden_pairings exC6 exC6Sched (by decide) (by decide) (by decide)
     (by decide) (by decide)⟩

theorem assignPatient_structure (m : ConstraintMatrices) (p : Nat) (rs : Int)
    (pav tav : List (List Int)) (flag : Bool) (las2 : List Assignment)
    (pav2 tav2 : List (List Int))
    (h : assignPatient m p rs pav tav = some (flag, las2, pav2, tav2)) :
    (∀ a ∈ las2, a.patient_id = m.patient_ids.getD p "" ∧ a.duration_minutes = 20) ∧
    (flag = true → las2.length = rs.toNat) := by
  rw [assignPatient] at h
  by_cases hearly : ((availableSlotsOf (pav.getD p [])).length : Int) < rs
  · rw [if_pos hearly] at h
    cases h
    exact ⟨by simp, fun hcon => by cases hcon⟩
  · rw [if_neg hearly] at h
    obtain ⟨new, hlas, hprop, hlen⟩ :=
      assignLoop_structure m p (availableSlotsOf (pav.getD p [])) rs.toNat _ _ _ _ _ _ _ _
        (by simpa using h)
    rw [hlas]
    refine ⟨by simpa using hprop, ?_⟩
    intro hf
    simpa using hlen hf

theorem scheduleAux_cnt_frame (m : ConstraintMatrices) :
    ∀ order pav tav acc uns s,
    scheduleAux m order pav tav acc uns = some s →
    ∀ pid, (∀ q ∈ order, m.patient_ids.getD q "" ≠ pid) →
    cntFor s.assignments pid = cntFor acc pid := by
  intro order
  induction order with
  | nil =>
    intro pav tav acc uns s h pid _
    rw [scheduleAux] at h
    cases h
    rfl
  | cons p rest ih =>
    intro pav tav acc uns s h pid hne
    rw [scheduleAux] at h
    cases hap : assignPatient m p (Int.fdiv (m.requirements.getD p 0) 20) pav tav with
    | none => rw [hap] at h; cases h
    | some r =>
      obtain ⟨flag, las2, pav2, tav2⟩ := r
      rw [hap] at h
      obtain ⟨hprop, _⟩ := assignPatient_structure m p _ pav tav flag las2 pav2 tav2 hap
      have hne2 : ∀ q ∈ rest, m.patient_ids.getD q "" ≠ pid := by
        intro q hq
        exact hne q (by simp [hq])
      cases flag with
      | true =>
        dsimp only at h
        rw [ih pav2 tav2 (acc ++ las2) uns s h pid hne2, cntFor_append,
            cntFor_eq_zero las2 pid ?_, Nat.add_zero]
        intro a ha
        rw [(hprop a ha).1]
        exact hne p (by simp)
      | false =>
        dsimp only at h
        exact ih pav2 tav2 acc (uns ++ [m.patient_ids.getD p ""]) s h pid hne2

theorem scheduleAux_durations (m : ConstraintMatrices) :
    ∀ order pav tav acc uns s,
    scheduleAux m order pav tav acc uns = some s →
    (∀ a ∈ acc, a.duration_minutes = 20) →
    ∀ a ∈ s.assignments, a.duration_minutes = 20 := by
  intro order
  induction order with
  | nil =>
    intro pav tav acc uns s h hacc
    rw [scheduleAux] at h
    cases h
    exact hacc
  | cons p rest ih =>
    intro pav tav acc uns s h hacc
    rw [scheduleAux] at h
    cases hap : assignPatient m p (Int.fdiv (m.requirements.getD p 0) 20) pav tav with
    | none => rw [hap] at h; cases h
    | some r =>
      obtain ⟨flag, las2, pav2, tav2⟩ := r
      rw [hap] at h
      obtain ⟨hprop, _⟩ := assignPatient_structure m p _ pav tav flag las2 pav2 tav2 hap
      cases flag with
      | true =>
        dsimp only at h
        refine ih pav2 tav2 (acc ++ las2) uns s h ?_
        intro a ha
        rcases List.mem_append.mp ha with h1 | h1
        · exact hacc a h1
        · exact (hprop a h1).2
      | false =>
        dsimp only at h
        exact ih pav2 tav2 acc (uns ++ [m.patient_ids.getD p ""]) s h hacc

theorem scheduleAux_uns (m : ConstraintMatrices) :
    ∀ order pav tav acc uns s,
    scheduleAux m order pav tav acc uns = some s →
    (∀ pid, pid ∈ uns → pid ∈ s.unscheduled_patients) ∧
    (∀ pid, pid ∈ s.unscheduled_patients →
      pid ∈ uns ∨ ∃ q ∈ order, pid = m.patient_ids.getD q "") := by
  intro order
  induction order with
  | nil =>
    intro pav tav acc uns s h
    rw [scheduleAux] at h
    cases h
    exact ⟨fun pid h2 => h2, fun pid h2 => Or.inl h2⟩
  | cons p rest ih =>
    intro pav tav acc uns s h
    rw [scheduleAux] at h
    cases hap : assignPatient m p (Int.fdiv (m.requirements.getD p 0) 20) pav tav with
    | none => rw [hap] at h; cases h
    | some r =>
      obtain ⟨flag, las2, pav2, tav2⟩ := r
      rw [hap] at h
      cases flag with
      | true =>
        dsimp only at h
        obtain ⟨g1, g2⟩ := ih pav2 tav2 (acc ++ las2) uns s h
        refine ⟨g1, ?_⟩
        intro pid h2
        rcases g2 pid h2 with h3 | ⟨q, hq, h3⟩
        · exact Or.inl h3
        · exact Or.inr ⟨q, by simp [hq], h3⟩
      | false =>
        dsimp only at h
        obtain ⟨g1, g2⟩ := ih pav2 tav2 acc (uns ++ [m.patient_ids.getD p ""]) s h
        constructor
        · intro pid h2
          exact g1 pid (List.mem_append.mpr (Or.inl h2))
        · intro pid h2
          rcases g2 pid h2 with h3 | ⟨q, hq, h3⟩
          · rcases List.mem_append.mp h3 with h4 | h4
            · exact Or.inl h4
            · exact Or.inr ⟨p, by simp, by simpa using h4⟩
          · exact Or.inr ⟨q, by simp [hq], h3⟩

theorem scheduleAux_coverage (m : ConstraintMatrices)
    (hndp : m.patient_ids.Nodup) :
    ∀ order pav tav acc uns s,
    scheduleAux m order pav tav acc uns = some s →
    (∀ q ∈ order, q < m.patient_ids.length) →
    order.Nodup →
    (∀ q ∈ order, cntFor acc (m.patient_ids.getD q "") = 0) →
    (∀ q ∈ order, m.patient_ids.getD q "" ∉ uns) →
    ∀ q ∈ order,
      (m.patient_ids.getD q "" ∉ s.unscheduled_patients →
        cntFor s.assignments (m.patient_ids.getD q "")
          = (Int.fdiv (m.requirements.getD q 0) 20).toNat) ∧
      (m.patient_ids.getD q "" ∈ s.unscheduled_patients →
        cntFor s.assignments (m.patient_ids.getD q "") = 0) := by
  intro order
  induction order with
  | nil =>
    intro pav tav acc uns s h _ _ _ _ q hq
    cases hq
  | cons p rest ih =>
    intro pav tav acc uns s h horder hno hacc huns q hq
    rw [scheduleAux] at h
    cases hap : assignPatient m p (Int.fdiv (m.requirements.getD p 0) 20) pav tav with
    | none => rw [hap] at h; cases h
    | some r =>
      obtain ⟨flag, las2, pav2, tav2⟩ := r
      rw [hap] at h
      obtain ⟨hprop, hflen⟩ := assignPatient_structure m p _ pav tav flag las2 pav2 tav2 hap
      have hp : p < m.patient_ids.length := horder p (by simp)
      have hpnr : p ∉ rest := (List.nodup_cons.mp hno).1
      have hnor : rest.Nodup := (List.nodup_cons.mp hno).2
      have hordr : ∀ q2 ∈ rest, q2 < m.patient_ids.length := by
        intro q2 hq2
        exact horder q2 (by simp [hq2])
      have hnep : ∀ q2 ∈ rest, m.patient_ids.getD q2 "" ≠ m.patient_ids.getD p "" := by
        intro q2 hq2 hcon
        have heqi := getD_inj m.patient_ids hndp q2 p "" (hordr q2 hq2) hp hcon
        exact hpnr (heqi ▸ hq2)
      cases flag with
      | true =>
        dsimp only at h
        have hcnt_p : cntFor s.assignments (m.patient_ids.getD p "")
            = (Int.fdiv (m.requirements.getD p 0) 20).toNat := by
          rw [scheduleAux_cnt_frame m rest pav2 tav2 (acc ++ las2) uns s h
              (m.patient_ids.getD p "") hnep,
            cntFor_append, hacc p (by simp),
            cntFor_all las2 _ (fun a ha => (hprop a ha).1), hflen rfl]
          exact Nat.zero_add _
        have hnuns_p : m.patient_ids.getD p "" ∉ s.unscheduled_patients := by
          intro hmem
          rcases (scheduleAux_uns m rest pav2 tav2 (acc ++ las2) uns s h).2 _ hmem with
            h1 | ⟨q2, hq2, h1⟩
          · exact huns p (by simp) h1
          · exact hnep q2 hq2 h1.symm
        rcases List.mem_cons.mp hq with rfl | hqr
        · exact ⟨fun _ => hcnt_p, fun hmem => absurd hmem hnuns_p⟩
        · refine ih pav2 tav2 (acc ++ las2) uns s h hordr hnor ?_ ?_ q hqr
          · intro q2 hq2
            rw [cntFor_append, hacc q2 (by simp [hq2]),
                cntFor_eq_zero las2 _ ?_]
            intro a ha
            rw [(hprop a ha).1]
            exact (hnep q2 hq2).symm
          · intro q2 hq2
            exact huns q2 (by simp [hq2])
      | false =>
        dsimp only at h
        rcases List.mem_cons.mp hq with rfl | hqr
        · have hcnt0 : cntFor s.assignments (m.patient_ids.getD q "") = 0 := by
            rw [scheduleAux_cnt_frame m rest pav2 tav2 acc
                (uns ++ [m.patient_ids.getD q ""]) s h (m.patient_ids.getD q "") hnep,
              hacc q (by simp)]
          have huns_q : m.patient_ids.getD q "" ∈ s.unscheduled_patients :=
            (scheduleAux_uns m rest pav2 tav2 acc (uns ++ [m.patient_ids.getD q ""]) s h).1
              _ (List.mem_append.mpr (Or.inr (by simp)))
          exact ⟨fun hnm => absurd huns_q hnm, fun _ => hcnt0⟩
        · refine ih pav2 tav2 acc (uns ++ [m.patient_ids.getD p ""]) s h hordr hnor ?_ ?_ q hqr
          · intro q2 hq2
            exact hacc q2 (by simp [hq2])
          · intro q2 hq2
            rw [List.mem_append]
            rintro (h1 | h1)
            · exact huns q2 (by simp [hq2]) h1
            · exact hnep q2 hq2 (by simpa using h1)

theorem req_arith (r : Int) (hpos : 0 < r) (hdvd : r % 20 = 0) :
    (20 : Int) * (((Int.fdiv r 20).toNat : Int)) = r := by
  rw [Int.fdiv_eq_ediv _ (by norm_num)]
  have hq : 20 * (r / 20) = r := by
    have h2 := Int.ediv_add_emod r 20
    rw [hdvd, add_zero] at h2
    exact h2
  have hnn : 0 ≤ r / 20 := Int.ediv_nonneg (le_of_lt hpos) (by norm_num)
  rw [Int.toNat_of_nonneg hnn]
  exact hq

theorem cntFor_zero (l : List Assignment) (pid : String)
    (h : cntFor l pid = 0) : ∀ a ∈ l, a.patient_id ≠ pid := by
  intro a ha hcon
  rw [cntFor, List.length_eq_zero] at h
  have h2 : a ∈ l.filter (fun a => a.patient_id = pid) :=
    List.mem_filter.mpr ⟨ha, by simp [hcon]⟩
  rw [h] at h2
  cases h2

/-- C1: coverage law.  For matrices whose requirements are positive multiples
of 20 (and distinct patient ids), every patient id not in
`unscheduled_patients` receives total assigned minutes exactly equal to its
requirements entry, and every id in `unscheduled_patients` receives strictly
fewer minutes (in fact zero, since a failed patient's partial assignments are
discarded). -/
theorem C1_coverage (m : ConstraintMatrices) (s : Schedule)
    (hwf : WF m) (hndp : m.patient_ids.Nodup)
    (hreq : ∀ i, i < m.patient_ids.length →
      0 < m.requirements.getD i 0 ∧ m.requirements.getD i 0 % 20 = 0)
    (hs : schedule m = some s) :
    ∀ p, p < m.patient_ids.length →
      (m.patient_ids.getD p "" ∉ s.unscheduled_patients →
        totalMinutes s (m.patient_ids.getD p "") = m.requirements.getD p 0) ∧
      (m.patient_ids.getD p "" ∈ s.unscheduled_patients →
        totalMinutes s (m.patient_ids.getD p "") < m.requirements.getD p 0) := by
  intro p hp
  obtain ⟨_, _, _, horder⟩ := wf_dims m hwf
  obtain ⟨_, _, _, _, _, _, w7⟩ := hwf
  have hnodup_ord : (argsortDesc m.requirements).Nodup :=
    ((argsortDesc_perm m.requirements).nodup_iff).mpr (List.nodup_range _)
  have hmem : p ∈ argsortDesc m.requirements := by
    rw [(argsortDesc_perm m.requirements).mem_iff, List.mem_range, w7]
    exact hp
  have hdur := scheduleAux_durations m _ _ _ [] [] s hs (by simp)
  have hcov := scheduleAux_coverage m hndp _ _ _ [] [] s hs horder hnodup_ord
    (fun q _ => rfl) (by simp) p hmem
  obtain ⟨hpos, hdvd⟩ := hreq p hp
  constructor
  · intro hnm
    rw [totalMinutes_eq s _ hdur, hcov.1 hnm]
    exact req_arith _ hpos hdvd
  · intro hm
    rw [totalMinutes_eq s _ hdur, hcov.2 hm]
    simpa using hpos

/-- Witness for C1 at `exA` (one patient, 120 required minutes, fully
scheduled). -/
theorem C1_coverage_witness :
    WF exA ∧ exA.patient_ids.Nodup ∧
    (∀ i, i < exA.patient_ids.length →
      0 < exA.requirements.getD i 0 ∧ exA.requirements.getD i 0 % 20 = 0) ∧
    schedule exA = some exASched ∧
    (∀ p, p < exA.patient_ids.length →
      (exA.patient_ids.getD p "" ∉ exASched.unscheduled_patients →
        totalMinutes exASched (exA.patient_ids.getD p "") = exA.requirements.getD p 0) ∧
      (exA.patient_ids.getD p "" ∈ exASched.unscheduled_patients →
        totalMinutes exASched (exA.patient_ids.getD p "") < exA.requirements.getD p 0)) :=
  ⟨by decide, by decide, by decide, by decide,
   C1_coverage exA exASched (by decide) (by decide) (by decide) (by decide)⟩

/-- C3 (amended): every patient listed in `unscheduled_patients` has no
assignment at all in the returned schedule — both the early-infeasibility
path and the mid-loop sentinel path discard the patient's partial
assignments. -/
theorem C3_unscheduled_no_assignments (m : ConstraintMatrices) (s : Schedule)
    (hwf : WF m) (hndp : m.patient_ids.Nodup) (hs : schedule m = some s) :
    ∀ pid ∈ s.unscheduled_patients, ∀ a ∈ s.assignments, a.patient_id ≠ pid := by
  intro pid hpid
  obtain ⟨_, _, _, horder⟩ := wf_dims m hwf
  have hnodup_ord : (argsortDesc m.requirements).Nodup :=
    ((argsortDesc_perm m.requirements).nodup_iff).mpr (List.nodup_range _)
  rcases (scheduleAux_uns m _ _ _ [] [] s hs).2 pid hpid with h1 | ⟨q, hq, h1⟩
  · cases h1
  · subst h1
    have hcov := scheduleAux_coverage m hndp _ _ _ [] [] s hs horder hnodup_ord
      (fun q2 _ => rfl) (by simp) q hq
    exact cntFor_zero _ _ (hcov.2 hpid)

/-- Witness for C3 (amended) at `exC3`: patient `P` is unscheduled and has no
assignments in the returned schedule. -/
theorem C3_unscheduled_no_assignments_witness :
    WF exC3 ∧ exC3.patient_ids.Nodup ∧
    schedule exC3 = some (Schedule.mk [] "" ["P"]) ∧
    (∀ pid ∈ (Schedule.mk [] "" ["P"]).unscheduled_patients,
      ∀ a ∈ (Schedule.mk [] "" ["P"]).assignments, a.patient_id ≠ pid) :=
  ⟨by decide, by decide, by decide,
   C3_unscheduled_no_assignments exC3 (Schedule.mk [] "" ["P"])
     (by decide) (by decide) (by decide)⟩

/-! ## C10: the scheduler never mutates its input arrays (store model) -/

theorem stLen_stWrite (st : Store) (r i j : Nat) (v : Int) :
    stLen (stWrite st r i j v) = stLen st := by
  simp [stLen, stWrite]

theorem stGet_stWrite_ne (st : Store) (r r2 i j : Nat) (v : Int) (h : r ≠ r2) :
    stGet (stWrite st r2 i j v) r = stGet st r := by
  simp only [stGet, stWrite, List.getD_eq_getElem?_getD, List.getElem?_set]
  rw [if_neg (Ne.symm h)]

theorem stGet_stWrite_self (st : Store) (r i j : Nat) (v : Int) (h : r < stLen st) :
    stGet (stWrite st r i j v) r = mset (stGet st r) i j v := by
  simp only [stGet, stWrite, List.getD_eq_getElem?_getD, List.getElem?_set]
  simp only [stLen] at h
  simp [h]

theorem stGet_append_left (st : Store) (l : List (List (List Int))) (r : Nat)
    (h : r < stLen st) : stGet (List.append st l) r = stGet st r := by
  simp only [stGet, List.getD_eq_getElem?_getD, List.append_eq]
  rw [List.getElem?_append, if_pos (by simpa [stLen] using h)]

theorem stGet_append_two_left (st : Store) (x y : List (List Int)) :
    stGet (List.append st [x, y]) (stLen st) = x := by
  simp only [stGet, List.getD_eq_getElem?_getD, List.append_eq]
  rw [List.getElem?_append_right (by simp [stLen])]
  simp [stLen]

theorem stGet_append_two_right (st : Store) (x y : List (List Int)) :
    stGet (List.append st [x, y]) (stLen st + 1) = y := by
  simp only [stGet, List.getD_eq_getElem?_getD, List.append_eq]
  rw [List.getElem?_append_right (by simp [stLen])]
  simp [stLen]

theorem assignLoopST_spec (m : ConstraintMatrices) (p : Nat) (availSlots : List Nat)
    (pr tr : Nat) (hne : pr ≠ tr) :
    ∀ fuel cost st las,
    pr < stLen st → tr < stLen st →
    ((∀ r, r ≠ pr → r ≠ tr →
        stGet (assignLoopST m p availSlots pr tr fuel cost st las).2 r = stGet st r) ∧
     stLen (assignLoopST m p availSlots pr tr fuel cost st las).2 = stLen st ∧
     (assignLoop m p availSlots fuel cost (stGet st pr) (stGet st tr) las = none →
        (assignLoopST m p availSlots pr tr fuel cost st las).1 = none) ∧
     (∀ flag las2 pav2 tav2,
        assignLoop m p availSlots fuel cost (stGet st pr) (stGet st tr) las
          = some (flag, las2, pav2, tav2) →
        (assignLoopST m p availSlots pr tr fuel cost st las).1 = some (flag, las2) ∧
        stGet (assignLoopST m p availSlots pr tr fuel cost st las).2 pr = pav2 ∧
        stGet (assignLoopST m p availSlots pr tr fuel cost st las).2 tr = tav2)) := by
  intro fuel
  induction fuel with
  | zero =>
    intro cost st las hpr htr
    rw [assignLoopST, assignLoop]
    refine ⟨fun r _ _ => rfl, rfl, ?_, ?_⟩
    · intro hcon
      cases hcon
    · intro flag las2 pav2 tav2 h2
      injection h2 with h3
      injection h3 with h4 h5
      injection h5 with h6 h7
      injection h7 with h8 h9
      exact ⟨by rw [← h4, ← h6], by rw [h8], by rw [h9]⟩
  | succ fl ih =>
    intro cost st las hpr htr
    rw [assignLoopST, assignLoop]
    cases ha : argmin2D cost with
    | none =>
      refine ⟨fun r _ _ => rfl, rfl, fun _ => rfl, ?_⟩
      intro flag las2 pav2 tav2 h2
      cases h2
    | some t =>
      obtain ⟨v, i, j⟩ := t
      dsimp only
      by_cases hv : v ≥ 1000
      · simp only [if_pos hv]
        refine ⟨fun r _ _ => by trivial, by trivial, ?_, ?_⟩
        · intro hcon
          cases hcon
        · intro flag las2 pav2 tav2 h2
          injection h2 with h3
          injection h3 with h4 h5
          injection h5 with h6 h7
          injection h7 with h8 h9
          exact ⟨by rw [← h4, ← h6], by rw [h8], by rw [h9]⟩
      · simp only [if_neg hv]
        set s2 := availSlots.getD i 0 with hs2
        set st2 := stWrite (stWrite st pr p s2 0) tr j s2 0 with hst2
        have hget_pr : stGet st2 pr = mset (stGet st pr) p s2 0 := by
          rw [hst2, stGet_stWrite_ne _ _ _ _ _ _ hne,
              stGet_stWrite_self st pr p s2 0 hpr]
        have hget_tr : stGet st2 tr = mset (stGet st tr) j s2 0 := by
          rw [hst2, stGet_stWrite_self _ tr j s2 0 (by rw [stLen_stWrite]; exact htr),
              stGet_stWrite_ne _ _ _ _ _ _ (Ne.symm hne)]
        have hlen2 : stLen st2 = stLen st := by
          rw [hst2, stLen_stWrite, stLen_stWrite]
        obtain ⟨f1, f2, f3, f4⟩ := ih (setRow cost i 1000) st2 (las ++
          [⟨m.patient_ids.getD p "", m.therapist_ids.getD j "",
            m.timeslots.getD s2 "", 20⟩])
          (by rw [hlen2]; exact hpr) (by rw [hlen2]; exact htr)
        rw [hget_pr, hget_tr] at f3 f4
        refine ⟨?_, by rw [f2, hlen2], f3, f4⟩
        intro r hr1 hr2
        rw [f1 r hr1 hr2, hst2, stGet_stWrite_ne _ _ _ _ _ _ hr2,
            stGet_stWrite_ne _ _ _ _ _ _ hr1]

theorem assignPatientST_spec (m : ConstraintMatrices) (p : Nat) (rs : Int)
    (pr tr : Nat) (hne : pr ≠ tr) (st : Store)
    (hpr : pr < stLen st) (htr : tr < stLen st) :
    ((∀ r, r ≠ pr → r ≠ tr →
        stGet (assignPatientST m p rs pr tr st).2 r = stGet st r) ∧
     stLen (assignPatientST m p rs pr tr st).2 = stLen st ∧
     (assignPatient m p rs (stGet st pr) (stGet st tr) = none →
        (assignPatientST m p rs pr tr st).1 = none) ∧
     (∀ flag las2 pav2 tav2,
        assignPatient m p rs (stGet st pr) (stGet st tr) = some (flag, las2, pav2, tav2) →
        (assignPatientST m p rs pr tr st).1 = some (flag, las2) ∧
        stGet (assignPatientST m p rs pr tr st).2 pr = pav2 ∧
        stGet (assignPatientST m p rs pr tr st).2 tr = tav2)) := by
  rw [assignPatientST, assignPatient]
  by_cases hearly : ((availableSlotsOf ((stGet st pr).getD p [])).length : Int) < rs
  · simp only [if_pos hearly]
    refine ⟨fun r _ _ => by trivial, by trivial, ?_, ?_⟩
    · intro hcon
      cases hcon
    · intro flag las2 pav2 tav2 h2
      injection h2 with h3
      injection h3 with h4 h5
      injection h5 with h6 h7
      injection h7 with h8 h9
      exact ⟨by rw [← h4, ← h6], by rw [h8], by rw [h9]⟩
  · simp only [if_neg hearly]
    exact assignLoopST_spec m p _ pr tr hne rs.toNat _ st [] hpr htr

theorem scheduleAuxST_spec (m : ConstraintMatrices) (pr tr : Nat) (hne : pr ≠ tr) :
    ∀ order st acc uns,
    pr < stLen st → tr < stLen st →
    ((∀ r, r ≠ pr → r ≠ tr →
        stGet (scheduleAuxST m pr tr order st acc uns).2 r = stGet st r) ∧
     stLen (scheduleAuxST m pr tr order st acc uns).2 = stLen st ∧
     (scheduleAuxST m pr tr order st acc uns).1
       = scheduleAux m order (stGet st pr) (stGet st tr) acc uns) := by
  intro order
  induction order with
  | nil =>
    intro st acc uns hpr htr
    rw [scheduleAuxST, scheduleAux]
    exact ⟨fun r _ _ => rfl, rfl, rfl⟩
  | cons p rest ih =>
    intro st acc uns hpr htr
    rw [scheduleAuxST, scheduleAux]
    obtain ⟨g1, g2, g3, g4⟩ :=
      assignPatientST_spec m p (Int.fdiv (m.requirements.getD p 0) 20) pr tr hne st hpr htr
    rcases hr : assignPatientST m p (Int.fdiv (m.requirements.getD p 0) 20) pr tr st
      with ⟨o, st2⟩
    rw [hr] at g1 g2 g3 g4
    cases hap : assignPatient m p (Int.fdiv (m.requirements.getD p 0) 20)
        (stGet st pr) (stGet st tr) with
    | none =>
      have ho : o = none := g3 hap
      subst ho
      dsimp only
      exact ⟨g1, g2, rfl⟩
    | some r2 =>
      obtain ⟨flag, las2, pav2, tav2⟩ := r2
      obtain ⟨ho, hpav2, htav2⟩ := g4 flag las2 pav2 tav2 hap
      subst ho
      have hpr2 : pr < stLen st2 := by rw [g2]; exact hpr
      have htr2 : tr < stLen st2 := by rw [g2]; exact htr
      cases flag with
      | true =>
        dsimp only
        obtain ⟨k1, k2, k3⟩ := ih st2 (acc ++ las2) uns hpr2 htr2
        refine ⟨?_, by rw [k2, g2], ?_⟩
        · intro r hr1 hr2
          rw [k1 r hr1 hr2, g1 r hr1 hr2]
        · rw [k3, hpav2, htav2]
      | false =>
        dsimp only
        obtain ⟨k1, k2, k3⟩ := ih st2 acc (uns ++ [m.patient_ids.getD p ""]) hpr2 htr2
        refine ⟨?_, by rw [k2, g2], ?_⟩
        · intro r hr1 hr2
          rw [k1 r hr1 hr2, g1 r hr1 hr2]
        · rw [k3, hpav2, htav2]

theorem scheduleST_spec (st : Store) (mr : ConstraintMatricesRef) :
    (∀ r, r < stLen st → stGet (scheduleST st mr).2 r = stGet st r) ∧
    stLen (scheduleST st mr).2 = stLen st + 2 ∧
    (scheduleST st mr).1 = schedule (toCM st mr) := by
  have hne : stLen st ≠ stLen st + 1 := by omega
  have hlen1 : stLen (List.append st
      [(toCM st mr).patient_availability, (toCM st mr).therapist_availability])
      = stLen st + 2 := by
    simp [stLen]
  have hpr1 : stLen st < stLen (List.append st
      [(toCM st mr).patient_availability, (toCM st mr).therapist_availability]) := by
    omega
  have htr1 : stLen st + 1 < stLen (List.append st
      [(toCM st mr).patient_availability, (toCM st mr).therapist_availability]) := by
    omega
  obtain ⟨k1, k2, k3⟩ := scheduleAuxST_spec (toCM st mr) (stLen st) (stLen st + 1) hne
    (argsortDesc (toCM st mr).requirements)
    (List.append st
      [(toCM st mr).patient_availability, (toCM st mr).therapist_availability])
    [] [] hpr1 htr1
  have hdef : scheduleST st mr
      = scheduleAuxST (toCM st mr) (stLen st) (stLen st + 1)
          (argsortDesc (toCM st mr).requirements)
          (List.append st
            [(toCM st mr).patient_availability, (toCM st mr).therapist_availability])
          [] [] := rfl
  refine ⟨?_, ?_, ?_⟩
  · intro r hr
    rw [hdef, k1 r (by omega) (by omega),
        stGet_append_left st _ r hr]
  · rw [hdef, k2, hlen1]
  · rw [hdef, k3, stGet_append_two_left, stGet_append_two_right]
    rfl

/-- C10: the scheduler never modifies its input.  In the store model (numpy
arrays as heap cells, `ConstraintMatrices` holding references to its two
availability arrays), `schedule` copies the availability matrices into fresh
cells and mutates only those: every pre-existing store cell — in particular
both input availability arrays — is unchanged after the call, the dereferenced
input `ConstraintMatrices` (availability arrays, compatibility, requirements,
id and timeslot lists) is identical before and after, the store-model run
returns exactly the pure `schedule` of the input, and a second call on the
same matrices returns the same result. -/
theorem C10_schedule_frame (st : Store) (mr : ConstraintMatricesRef)
    (hp : mr.pavRef < stLen st) (ht : mr.tavRef < stLen st) :
    (∀ r, r < stLen st → stGet (scheduleST st mr).2 r = stGet st r) ∧
    toCM (scheduleST st mr).2 mr = toCM st mr ∧
    (scheduleST st mr).1 = schedule (toCM st mr) ∧
    (scheduleST (scheduleST st mr).2 mr).1 = (scheduleST st mr).1 := by
  obtain ⟨k1, k2, k3⟩ := scheduleST_spec st mr
  have hCM : toCM (scheduleST st mr).2 mr = toCM st mr := by
    rw [toCM, toCM, k1 mr.pavRef hp, k1 mr.tavRef ht]
  refine ⟨k1, hCM, k3, ?_⟩
  obtain ⟨_, _, k6⟩ := scheduleST_spec (scheduleST st mr).2 mr
  rw [k6, hCM, k3]

/-- Witness for C10 at `exStore`/`exMR` (the `exA` matrices held in a
two-cell store). -/
theorem C10_schedule_frame_witness :
    exMR.pavRef < stLen exStore ∧ exMR.tavRef < stLen exStore ∧
    ((∀ r, r < stLen exStore → stGet (scheduleST exStore exMR).2 r = stGet exStore r) ∧
     toCM (scheduleST exStore exMR).2 exMR = toCM exStore exMR ∧
     (scheduleST exStore exMR).1 = schedule (toCM exStore exMR) ∧
     (scheduleST (scheduleST exStore exMR).2 exMR).1 = (scheduleST exStore exMR).1) :=
  ⟨by decide, by decide,
   C10_schedule_frame exStore exMR (by decide) (by decide)⟩
